import Mathlib

/-!
Verification of the ccmonitor ingestion and aggregation engine.

This file gives a shallow embedding of the engine's core operations
(token/cost calculator, repository mutations, transcript entry processing,
incremental file parsing, hook-event ingestion, websocket broadcasting)
and proves the stated properties about them.

Modelling conventions:
* SQLite tables become Lean lists of structures; keyed lookups use
  `List.find?` with a boolean key predicate, mirroring `WHERE key = ?`.
* JavaScript numbers used as token counts become `Nat`; monetary costs
  become `ℚ` (the source arithmetic `tokens / 1e6 * rate` is modelled as
  exact rational arithmetic).
* JavaScript `undefined` for an absent field becomes `Option.none`; the
  JS falsy-coalescing `x || d` on strings is modelled by `jsOr` (the empty
  string is falsy), and `x || 0` on numbers by `Option.getD 0`.
* Timestamps are ISO-8601 strings compared lexicographically, exactly as
  the source compares them with JavaScript `<`.
* Strings produced by `JSON.stringify` in the source are carried as
  already-rendered strings in the model.
-/

namespace CCMonitor

/-- JS `x || d` on an optional string: `undefined` and `""` are falsy. -/
def jsOr (x : Option String) (d : String) : String :=
  match x with
  | some s => if s = "" then d else s
  | none => d

/-- JS `x || null` on an optional string: `undefined` and `""` collapse to null. -/
def jsOrNull (x : Option String) : Option String :=
  match x with
  | some s => if s = "" then none else some s
  | none => none

/-! ### Token calculator (`token-calculator.ts`) -/

/-- The `usage` object of an assistant message (`TokenUsage`). Absent
fields are `none`; the source treats them as `0` via `|| 0`. -/
structure TokenUsage where
  input_tokens : Option Nat
  output_tokens : Option Nat
  cache_creation_input_tokens : Option Nat
  cache_read_input_tokens : Option Nat
deriving DecidableEq, Repr

/-- One per-model pricing tuple (price per million tokens). -/
structure Pricing where
  inputPerMillion : ℚ
  outputPerMillion : ℚ
  cacheWritePerMillion : ℚ
  cacheReadPerMillion : ℚ
deriving DecidableEq, Repr

/-- The `default` entry of the `MODEL_PRICING` record. -/
def defaultPricing : Pricing :=
  { inputPerMillion := 3, outputPerMillion := 15,
    cacheWritePerMillion := 15 / 4, cacheReadPerMillion := 3 / 10 }

/-- The `MODEL_PRICING[model] || MODEL_PRICING.default` lookup. -/
def MODEL_PRICING (model : String) : Pricing :=
  if model = "claude-opus-4-5-20251101" then
    { inputPerMillion := 15, outputPerMillion := 75,
      cacheWritePerMillion := 75 / 4, cacheReadPerMillion := 3 / 2 }
  else if model = "claude-sonnet-4-20250514" then
    { inputPerMillion := 3, outputPerMillion := 15,
      cacheWritePerMillion := 15 / 4, cacheReadPerMillion := 3 / 10 }
  else if model = "claude-3-5-sonnet-20241022" then
    { inputPerMillion := 3, outputPerMillion := 15,
      cacheWritePerMillion := 15 / 4, cacheReadPerMillion := 3 / 10 }
  else if model = "claude-3-5-haiku-20241022" then
    { inputPerMillion := 1, outputPerMillion := 5,
      cacheWritePerMillion := 5 / 4, cacheReadPerMillion := 1 / 10 }
  else defaultPricing

/-- Translation of `calculateCost` from `token-calculator.ts`. -/
def calculateCost (model : String) (usage : TokenUsage) : ℚ :=
  let pricing := MODEL_PRICING model
  let inputTokens := usage.input_tokens.getD 0
  let outputTokens := usage.output_tokens.getD 0
  let cacheWriteTokens := usage.cache_creation_input_tokens.getD 0
  let cacheReadTokens := usage.cache_read_input_tokens.getD 0
  let inputCost := ((inputTokens : ℚ) / 1000000) * pricing.inputPerMillion
  let outputCost := ((outputTokens : ℚ) / 1000000) * pricing.outputPerMillion
  let cacheWriteCost := ((cacheWriteTokens : ℚ) / 1000000) * pricing.cacheWritePerMillion
  let cacheReadCost := ((cacheReadTokens : ℚ) / 1000000) * pricing.cacheReadPerMillion
  inputCost + outputCost + cacheWriteCost + cacheReadCost

/-- Result shape of `extractTokens`. -/
structure Tokens where
  input : Nat
  output : Nat
  cacheWrite : Nat
  cacheRead : Nat
  totalInput : Nat
deriving DecidableEq, Repr

/-- Translation of `extractTokens` from `token-calculator.ts`:
`totalInput = input_tokens + cache_read_input_tokens`. -/
def extractTokens (usage : TokenUsage) : Tokens :=
  let inputTokens := usage.input_tokens.getD 0
  let outputTokens := usage.output_tokens.getD 0
  let cacheWrite := usage.cache_creation_input_tokens.getD 0
  let cacheRead := usage.cache_read_input_tokens.getD 0
  { input := inputTokens, output := outputTokens,
    cacheWrite := cacheWrite, cacheRead := cacheRead,
    totalInput := inputTokens + cacheRead }

/-! ### Durable state (`schema.ts`) -/

/-- One row of the `sessions` table. -/
structure Session where
  id : String
  project_path : Option String
  git_branch : Option String
  started_at : String
  ended_at : Option String
  total_input_tokens : Nat
  total_output_tokens : Nat
  total_cache_read_tokens : Nat
  total_cache_write_tokens : Nat
  total_cost_usd : ℚ
  version : Option String
deriving DecidableEq, Repr

/-- One row of the `events` table (the autoincrement `id` included). -/
structure Event where
  id : Nat
  session_id : String
  event_type : String
  hook_event_name : Option String
  entry_type : Option String
  tool_name : Option String
  tool_input : Option String
  tool_response : Option String
  content : Option String
  tokens_input : Option Nat
  tokens_output : Option Nat
  cache_read_tokens : Option Nat
  cache_write_tokens : Option Nat
  cost : Option ℚ
  model : Option String
  timestamp : String
  uuid : Option String
  parent_uuid : Option String
  raw_data : Option String
deriving DecidableEq, Repr

/-- One row of the `mcp_tools` table. -/
structure McpTool where
  session_id : String
  tool_name : String
  server_name : Option String
  invocation_count : Nat
  success_count : Nat
  error_count : Nat
  total_duration_ms : Nat
  last_used_at : String
deriving DecidableEq, Repr

/-- The durable store: the four relations of `schema.ts`.  File cursor
rows are `(file_path, position)` pairs (the `last_read_at` column plays
no role in any property below). -/
structure Db where
  sessions : List Session
  events : List Event
  mcpTools : List McpTool
  file_positions : List (String × Nat)
deriving DecidableEq, Repr

def Db.empty : Db := { sessions := [], events := [], mcpTools := [], file_positions := [] }

/-! ### Repository mutations (`repository.ts`) -/

/-- The `Partial<Session> & { id: string }` argument of `upsertSession`:
a field is `none` exactly when the caller leaves it `undefined`. -/
structure SessionPatch where
  id : String
  project_path : Option String := none
  git_branch : Option String := none
  started_at : Option String := none
  ended_at : Option String := none
  total_input_tokens : Option Nat := none
  total_output_tokens : Option Nat := none
  total_cache_read_tokens : Option Nat := none
  total_cache_write_tokens : Option Nat := none
  total_cost_usd : Option ℚ := none
  version : Option String := none
deriving Repr

/-- Translation of `Repository.upsertSession`.  On an existing row,
`started_at` is only moved earlier, `ended_at` is overwritten when
supplied, and all token/cost fields are added (`col = col + ?`).  On a
fresh id a full row is inserted; the SQL `INSERT` column list omits the
cache-token columns, so they take the schema default `0`.  `now` stands
for `new Date().toISOString()`. -/
def Db.upsertSession (db : Db) (now : String) (p : SessionPatch) : Db :=
  match db.sessions.find? (fun s => s.id == p.id) with
  | some _ =>
    { db with sessions := db.sessions.map (fun s =>
        if s.id == p.id then
          { s with
            started_at := match p.started_at with
              | some t => if t < s.started_at then t else s.started_at
              | none => s.started_at
            ended_at := match p.ended_at with
              | some t => some t
              | none => s.ended_at
            total_input_tokens := s.total_input_tokens + p.total_input_tokens.getD 0
            total_output_tokens := s.total_output_tokens + p.total_output_tokens.getD 0
            total_cost_usd := s.total_cost_usd + p.total_cost_usd.getD 0
            total_cache_read_tokens :=
              s.total_cache_read_tokens + p.total_cache_read_tokens.getD 0
            total_cache_write_tokens :=
              s.total_cache_write_tokens + p.total_cache_write_tokens.getD 0 }
        else s) }
  | none =>
    { db with sessions := db.sessions ++
        [{ id := p.id
           project_path := jsOrNull p.project_path
           git_branch := jsOrNull p.git_branch
           started_at := jsOr p.started_at now
           ended_at := p.ended_at
           total_input_tokens := p.total_input_tokens.getD 0
           total_output_tokens := p.total_output_tokens.getD 0
           total_cache_read_tokens := 0
           total_cache_write_tokens := 0
           total_cost_usd := p.total_cost_usd.getD 0
           version := jsOrNull p.version }] }

/-- The fields of `insertEvent`'s argument (`Omit<Event, 'id'>`). -/
structure NewEvent where
  session_id : String
  event_type : String
  hook_event_name : Option String := none
  entry_type : Option String := none
  tool_name : Option String := none
  tool_input : Option String := none
  tool_response : Option String := none
  content : Option String := none
  tokens_input : Option Nat := none
  tokens_output : Option Nat := none
  cache_read_tokens : Option Nat := none
  cache_write_tokens : Option Nat := none
  cost : Option ℚ := none
  model : Option String := none
  timestamp : String
  uuid : Option String := none
  parent_uuid : Option String := none
  raw_data : Option String := none
deriving Repr

/-- Whether some stored event already carries the (non-null) uuid `u` —
the body of `Repository.checkEventExists`, which deliberately queries
`WHERE uuid = ?` with no session filter. -/
def Db.uuidStored (db : Db) (u : String) : Bool :=
  db.events.any (fun ev => ev.uuid == some u)

/-- Translation of `Repository.checkEventExists`; the `sessionId`
argument is accepted and ignored, as in the source. -/
def Db.checkEventExists (db : Db) (_sessionId : String) (uuid : String) : Bool :=
  db.uuidStored uuid

/-- The stored row an `insertEvent` call produces, with its fresh id. -/
def NewEvent.row (e : NewEvent) (id : Nat) : Event :=
  { id := id, session_id := e.session_id, event_type := e.event_type,
    hook_event_name := e.hook_event_name, entry_type := e.entry_type,
    tool_name := e.tool_name, tool_input := e.tool_input,
    tool_response := e.tool_response, content := e.content,
    tokens_input := e.tokens_input, tokens_output := e.tokens_output,
    cache_read_tokens := e.cache_read_tokens,
    cache_write_tokens := e.cache_write_tokens,
    cost := e.cost, model := e.model, timestamp := e.timestamp,
    uuid := e.uuid, parent_uuid := e.parent_uuid,
    raw_data := e.raw_data }

/-- Whether the `INSERT` of `e` violates the partial unique index
`idx_events_uuid_unique ON events(uuid) WHERE uuid IS NOT NULL`: null
uuids are exempt. -/
def Db.insertConflict (db : Db) (e : NewEvent) : Bool :=
  match e.uuid with
  | some u => db.uuidStored u
  | none => false

/-- Translation of `Repository.insertEvent` together with the partial
unique index from `schema.ts`: inserting a row whose non-null uuid is
already stored makes SQLite throw, modelled as `none`.  A successful
insert returns the new store and the fresh row id. -/
def Db.insertEvent (db : Db) (e : NewEvent) : Option (Db × Nat) :=
  if db.insertConflict e then none
  else
    some ({ db with events := db.events ++ [e.row (db.events.length + 1)] },
      db.events.length + 1)

/-- Translation of `Repository.upsertMcpTool`. -/
def Db.upsertMcpTool (db : Db) (now sessionId toolName : String)
    (success : Bool) (durationMs : Nat) : Db :=
  let serverName : Option String :=
    if toolName.startsWith "mcp__" then jsOrNull ((toolName.splitOn "__").get? 1)
    else none
  match db.mcpTools.find? (fun t => t.session_id == sessionId && t.tool_name == toolName) with
  | some _ =>
    { db with mcpTools := db.mcpTools.map (fun t =>
        if t.session_id == sessionId && t.tool_name == toolName then
          { t with invocation_count := t.invocation_count + 1
                   success_count := t.success_count + (if success then 1 else 0)
                   error_count := t.error_count + (if success then 0 else 1)
                   total_duration_ms := t.total_duration_ms + durationMs
                   last_used_at := now }
        else t) }
  | none =>
    { db with mcpTools := db.mcpTools ++
        [{ session_id := sessionId, tool_name := toolName, server_name := serverName,
           invocation_count := 1,
           success_count := if success then 1 else 0,
           error_count := if success then 0 else 1,
           total_duration_ms := durationMs, last_used_at := now }] }

/-- Translation of `Repository.getFilePosition` (`row?.position || 0`). -/
def Db.getFilePosition (db : Db) (filePath : String) : Nat :=
  match db.file_positions.find? (fun q => q.1 == filePath) with
  | some q => q.2
  | none => 0

/-- Translation of `Repository.setFilePosition`
(`INSERT ... ON CONFLICT(file_path) DO UPDATE SET position = ?`). -/
def Db.setFilePosition (db : Db) (filePath : String) (position : Nat) : Db :=
  if db.file_positions.any (fun q => q.1 == filePath) then
    { db with file_positions := db.file_positions.map (fun q =>
        if q.1 == filePath then (q.1, position) else q) }
  else
    { db with file_positions := db.file_positions ++ [(filePath, position)] }

/-- Translation of `Repository.getStats`. -/
structure Stats where
  totalSessions : Nat
  totalEvents : Nat
  totalTokens : Nat
  totalCost : ℚ
  mcpToolsUsed : Nat
deriving DecidableEq, Repr

def Db.getStats (db : Db) : Stats :=
  { totalSessions := db.sessions.length
    totalEvents := db.events.length
    totalTokens := (db.sessions.map (fun s => s.total_input_tokens + s.total_output_tokens)).sum
    totalCost := (db.sessions.map (fun s => s.total_cost_usd)).sum
    mcpToolsUsed := (db.mcpTools.map (fun t => t.tool_name)).dedup.length }

/-! ### Live broadcaster (`websocket.ts`, `WebSocketBroadcaster`) -/

/-- A connected websocket client.  `readyState = 1` means OPEN.  Whether
`client.send` would throw for this client is recorded as the static
attribute `sendFails` (the model's rendering of a nondeterministic
transport failure). -/
structure Client where
  readyState : Nat
  sendFails : Bool
deriving DecidableEq, Repr

/-- The broadcaster's set of clients, in insertion order. -/
structure Ws where
  clients : List Client
deriving DecidableEq, Repr

/-- Item shape returned to callers and broadcast to clients. -/
structure EventItem where
  id : Nat
  sessionId : String
  eventType : String
  hookEventName : Option String := none
  entryType : Option String := none
  toolName : Option String := none
  content : Option String := none
  tokensInput : Option Nat := none
  tokensOutput : Option Nat := none
  cost : Option ℚ := none
  model : Option String := none
  timestamp : String
deriving DecidableEq, Repr

/-- A message handed to `broadcast` (the `WsMessage` union). -/
inductive WsMessage where
  | event (e : EventItem)
  | statsUpdate (s : Stats)
deriving DecidableEq, Repr

/-- The clients `WebSocketBroadcaster.broadcast` actually sends to: those
whose channel is OPEN and whose `send` does not throw. -/
def Ws.deliveredTo (ws : Ws) (_msg : WsMessage) : List Client :=
  ws.clients.filter (fun c => c.readyState == 1 && !c.sendFails)

/-- Translation of `WebSocketBroadcaster.broadcast`: clients with
`readyState ≠ 1` are skipped but kept; an OPEN client whose `send`
throws is caught and deleted from the set; no error escapes (the
function is total). -/
def Ws.broadcast (ws : Ws) (_msg : WsMessage) : Ws :=
  { clients := ws.clients.filter (fun c => !(c.readyState == 1 && c.sendFails)) }

/-- The process state seen by the pipeline: the durable store plus the
singleton broadcaster. -/
structure World where
  db : Db
  ws : Ws
deriving Repr

/-! ### Transcript entries (`types`, `transcript-parser.ts`) -/

/-- One `tool_result` fragment (or other block) of a user message whose
content is an array.  `contentStr` is the fragment content, already
rendered to a string when it was an object (`JSON.stringify`). -/
structure UserBlock where
  type : String
  contentStr : String
  is_error : Bool
deriving DecidableEq, Repr

/-- The `message.content` of a user entry: plain text or an array. -/
inductive UserContent where
  | text (s : String)
  | blocks (l : List UserBlock)
deriving DecidableEq, Repr

/-- One content block of an assistant message.  For `tool_use` blocks,
`inputStr` is `JSON.stringify(input, null, 2)` when `input` is truthy. -/
inductive ContentBlock where
  | text (t : String)
  | thinking (th : String)
  | tool_use (name : String) (inputStr : Option String)
  | otherBlock
deriving DecidableEq, Repr

/-- The `message` of an assistant entry. -/
structure AssistantMessage where
  content : List ContentBlock
  usage : TokenUsage
  model : String
deriving DecidableEq, Repr

/-- The `type` discriminator of a transcript entry, with its payload. -/
inductive EntryKind where
  | user (message : UserContent)
  | assistant (message : AssistantMessage)
  | otherKind
deriving DecidableEq, Repr

/-- One parsed line of a transcript file.  `raw` stands for
`JSON.stringify(entry)`. -/
structure Entry where
  kind : EntryKind
  uuid : Option String
  parentUuid : Option String
  timestamp : String
  cwd : Option String
  gitBranch : Option String
  version : Option String
  raw : String
deriving DecidableEq, Repr

/-! ### Transcript parsing (`transcript-parser.ts`) -/

/-- The content string and tool-result flag computed at the top of
`processUserEntry`: plain text verbatim; an array keeps only the
`tool_result` fragments, each prefixed with an error marker when flagged,
joined by a separator. -/
def userContentTR (message : UserContent) : String × Bool :=
  match message with
  | .text s => (s, false)
  | .blocks l =>
    let toolResults := l.filter (fun c => c.type == "tool_result")
    if toolResults.length > 0 then
      (String.intercalate "\n---\n"
        (toolResults.map (fun c =>
          (if c.is_error then "[Error] " else "") ++ c.contentStr)), true)
    else ("", false)

/-- The row payload `processUserEntry` hands to `insertEvent`. -/
def userNewEvent (entry : Entry) (message : UserContent) (sessionId : String) : NewEvent :=
  let content := (userContentTR message).1
  let isToolResult := (userContentTR message).2
  { session_id := sessionId
    event_type := "transcript"
    entry_type := some (if isToolResult then "tool_result" else "user")
    tool_response := if isToolResult then some (content.take 5000) else none
    content := some (content.take 5000)
    timestamp := entry.timestamp
    uuid := entry.uuid
    parent_uuid := entry.parentUuid
    raw_data := some entry.raw }

/-- Translation of `TranscriptParser.processUserEntry`. -/
def processUserEntry (w : World) (entry : Entry) (message : UserContent)
    (sessionId : String) : World × Option EventItem :=
  match w.db.insertEvent (userNewEvent entry message sessionId) with
  | none => (w, none)
  | some (db, eventId) =>
    let eventItem : EventItem :=
      { id := eventId, sessionId := sessionId, eventType := "transcript",
        entryType := some (if (userContentTR message).2 then "tool_result" else "user"),
        content := some ((userContentTR message).1.take 500),
        timestamp := entry.timestamp }
    let ws := (w.ws).broadcast (.event eventItem)
    ({ db := db, ws := ws }, some eventItem)

/-- One iteration of the content-block loop of `processAssistantEntry`:
accumulates the text rendering and tool names, and records MCP tool
usage in the store. -/
def assistantBlockStep (now sessionId : String)
    (acc : String × List String × Db) (block : ContentBlock) :
    String × List String × Db :=
  let textContent := acc.1
  let toolUses := acc.2.1
  let db := acc.2.2
  match block with
  | .text t => (textContent ++ t, toolUses, db)
  | .thinking th =>
    if th ≠ "" then (textContent ++ "[Thinking] " ++ th ++ "\n", toolUses, db)
    else (textContent, toolUses, db)
  | .tool_use name inputStr =>
    let toolUses := toolUses ++ [name]
    let textContent := match inputStr with
      | some str => textContent ++ "[Tool: " ++ name ++ "] " ++ str.take 500 ++ "\n"
      | none => textContent
    let db := if name.startsWith "mcp__" then db.upsertMcpTool now sessionId name true 0 else db
    (textContent, toolUses, db)
  | .otherBlock => (textContent, toolUses, db)

/-- The content-block loop of `processAssistantEntry` over all blocks. -/
def assistantScan (now sessionId : String) (db : Db) (blocks : List ContentBlock) :
    String × List String × Db :=
  blocks.foldl (assistantBlockStep now sessionId) ("", [], db)

/-- The session-totals delta patch of `processAssistantEntry`: `totalInput`
semantics for the input column, plus output, cache and cost deltas. -/
def totalsPatch (sessionId : String) (m : AssistantMessage) : SessionPatch :=
  { id := sessionId
    total_input_tokens := some (extractTokens m.usage).totalInput
    total_output_tokens := some (extractTokens m.usage).output
    total_cache_read_tokens := some (extractTokens m.usage).cacheRead
    total_cache_write_tokens := some (extractTokens m.usage).cacheWrite
    total_cost_usd := some (calculateCost m.model m.usage) }

/-- The row payload `processAssistantEntry` hands to `insertEvent`. -/
def assistantNewEvent (entry : Entry) (m : AssistantMessage) (sessionId : String)
    (textContent : String) (toolUses : List String) : NewEvent :=
  { session_id := sessionId
    event_type := "transcript"
    entry_type := some "assistant"
    tool_name := if toolUses.length > 0 then some (String.intercalate ", " toolUses) else none
    content := some (textContent.take 5000)
    tokens_input := some (extractTokens m.usage).totalInput
    tokens_output := some (extractTokens m.usage).output
    cache_read_tokens := some (extractTokens m.usage).cacheRead
    cache_write_tokens := some (extractTokens m.usage).cacheWrite
    cost := some (calculateCost m.model m.usage)
    model := some m.model
    timestamp := entry.timestamp
    uuid := entry.uuid
    parent_uuid := entry.parentUuid
    raw_data := some entry.raw }

/-- Translation of `TranscriptParser.processAssistantEntry`: scan the
content blocks (tracking MCP tools), add the token/cost deltas to the
session, insert the event row, then broadcast the item and refreshed
stats. -/
def processAssistantEntry (w : World) (now : String) (entry : Entry)
    (m : AssistantMessage) (sessionId : String) : World × Option EventItem :=
  let scanned := assistantScan now sessionId w.db m.content
  let db := (scanned.2.2).upsertSession now (totalsPatch sessionId m)
  match db.insertEvent (assistantNewEvent entry m sessionId scanned.1 scanned.2.1) with
  | none => ({ db := db, ws := w.ws }, none)
  | some (db, eventId) =>
    let eventItem : EventItem :=
      { id := eventId, sessionId := sessionId, eventType := "transcript",
        entryType := some "assistant",
        toolName := if scanned.2.1.length > 0 then some (String.intercalate ", " scanned.2.1) else none,
        content := some (scanned.1.take 500),
        tokensInput := some (extractTokens m.usage).totalInput,
        tokensOutput := some (extractTokens m.usage).output,
        cost := some (calculateCost m.model m.usage),
        model := some m.model,
        timestamp := entry.timestamp }
    let ws := (w.ws).broadcast (.event eventItem)
    let ws := ws.broadcast (.statsUpdate db.getStats)
    ({ db := db, ws := ws }, some eventItem)

/-- The session-seeding patch of `processEntry`. -/
def seedPatch (entry : Entry) (sessionId : String) : SessionPatch :=
  { id := sessionId
    project_path := entry.cwd
    git_branch := jsOrNull entry.gitBranch
    started_at := some entry.timestamp
    version := entry.version }

/-- Whether the JS guard `entry.uuid && ...` sees a truthy uuid. -/
def uuidTruthyB (entry : Entry) : Bool :=
  match entry.uuid with
  | some u => u != ""
  | none => false

/-- Translation of `TranscriptParser.processEntry`: global uuid dedup
first (`entry.uuid && checkEventExists(...)`, where the empty string is
falsy), then the session-seeding upsert, then kind dispatch. -/
def processEntry (w : World) (now : String) (entry : Entry)
    (sessionId : String) : World × Option EventItem :=
  if uuidTruthyB entry && w.db.checkEventExists sessionId (entry.uuid.getD "") then
    (w, none)
  else
    let w := { w with db := w.db.upsertSession now (seedPatch entry sessionId) }
    match entry.kind with
    | .user message => processUserEntry w entry message sessionId
    | .assistant message => processAssistantEntry w now entry message sessionId
    | .otherKind => (w, none)

/-- One raw line of a transcript file, as `parseFile` sees it after
`content.split('\n')`: whitespace-only (removed by the
`filter(line => line.trim())`), unparsable by `JSON.parse` (the per-line
`catch` skips it), or a parsed entry. -/
inductive RawLine where
  | blank
  | malformed
  | entry (e : Entry)
deriving Repr

/-- A transcript file on disk: its path, its current total byte size
(`statSync(filePath).size`), and its full text split into lines (the
source reads the whole file with `readFileSync`). -/
structure TFile where
  path : String
  size : Nat
  lines : List RawLine
deriving Repr

/-- The byte offset computed on line 28 of `transcript-parser.ts`:
`stat.size < startPosition ? 0 : startPosition`.  In the source this
value is assigned to `readFrom` and then never used. -/
def parseFileReadFrom (size startPosition : Nat) : Nat :=
  if size < startPosition then 0 else startPosition

/-- Extraction of the session id from the file path:
`filePath.split('/').pop()?.replace('.jsonl', '') || 'unknown'`. -/
def sessionIdOfPath (filePath : String) : String :=
  jsOr (((filePath.splitOn "/").getLast?).map (fun base => base.replace ".jsonl" "")) "unknown"

/-- Translation of `TranscriptParser.parseFile`, for a pass in which the
file is readable (`statSync`/`readFileSync` succeed).  The stored cursor
is fetched and `readFrom` computed exactly as in the source — and, as in
the source, the whole file content is then read and every non-blank line
processed regardless of that offset.  Malformed lines are skipped by the
per-line catch.  After the loop the cursor is set to the file's current
total size.  `parseLineStep` is one iteration of the line loop. -/
def parseLineStep (now sessionId : String) (acc : World × List EventItem)
    (line : RawLine) : World × List EventItem :=
  match line with
  | .blank => acc
  | .malformed => acc
  | .entry e =>
    let step := processEntry acc.1 now e sessionId
    match step.2 with
    | some item => (step.1, acc.2 ++ [item])
    | none => (step.1, acc.2)

def notBlank (l : RawLine) : Bool :=
  match l with
  | .blank => false
  | _ => true

def parseFile (w : World) (now : String) (f : TFile) : World × List EventItem :=
  let startPosition := w.db.getFilePosition f.path
  let _readFrom := parseFileReadFrom f.size startPosition
  let lines := f.lines.filter notBlank
  let sessionId := sessionIdOfPath f.path
  let result := lines.foldl (parseLineStep now sessionId) (w, [])
  let w := result.1
  let w := { w with db := w.db.setFilePosition f.path f.size }
  (w, result.2)

/-! ### Hook-event ingestion (`event-processor.ts`) -/

/-- The `tool_response` of a push record: absent/falsy, a JSON object
(with its rendering and optional `is_error` field), or a truthy
non-object value. -/
inductive ToolResponse where
  | absent
  | obj (is_error : Option Bool) (rendered : String)
  | nonObj (rendered : String)
deriving DecidableEq, Repr

/-- A push-style record received on the events route (`HookEvent`), with
its timestamp already ensured by the route handler. -/
structure HookEvent where
  session_id : String
  hook_event_name : String
  tool_name : Option String := none
  tool_input : Option String := none
  tool_response : ToolResponse := .absent
  prompt : Option String := none
  timestamp : String
  raw : String := ""
deriving Repr

/-- The `tool_response ? JSON.stringify(tool_response) : null` column
value. -/
def ToolResponse.column : ToolResponse → Option String
  | .absent => none
  | .obj _ r => some r
  | .nonObj r => some r

/-- The success inference of `processHookEvent`:
`!tool_response || (typeof tool_response === 'object' && is_error !== true)`. -/
def ToolResponse.successInferred : ToolResponse → Bool
  | .absent => true
  | .obj ie _ => !(ie == some true)
  | .nonObj _ => false

/-- The `content` extraction of `processHookEvent`: the prompt for a
truthy `UserPromptSubmit` prompt, else the rendered `tool_input`
truncated to 1000 characters, else null. -/
def hookContent (e : HookEvent) : Option String :=
  if e.hook_event_name = "UserPromptSubmit" ∧ jsOrNull e.prompt ≠ none then e.prompt
  else if jsOrNull e.tool_input ≠ none then e.tool_input.map (fun s => s.take 1000)
  else none

/-- The event row payload `processHookEvent` hands to `insertEvent`:
note `uuid: null` — push-derived events never carry a producer uuid. -/
def hookNewEvent (e : HookEvent) : NewEvent :=
  { session_id := e.session_id
    event_type := "hook"
    hook_event_name := some e.hook_event_name
    tool_name := e.tool_name
    tool_input := e.tool_input
    tool_response := e.tool_response.column
    content := hookContent e
    timestamp := e.timestamp
    uuid := none
    raw_data := some e.raw }

/-- Translation of `EventProcessor.processHookEvent`: session upsert,
content extraction, unconditional event insert with `uuid: null`, MCP
tool tracking, `SessionEnd` handling, then the two broadcasts.  The
insert can never hit the uuid unique index (its uuid is null), so the
`none` branch of `insertEvent` is unreachable and returns the state
unchanged with a dummy item. -/
def processHookEvent (w : World) (now : String) (e : HookEvent) : World × EventItem :=
  let db := w.db.upsertSession now { id := e.session_id, started_at := some e.timestamp }
  match db.insertEvent (hookNewEvent e) with
  | none => (w, { id := 0, sessionId := e.session_id, eventType := "hook", timestamp := e.timestamp })
  | some (db, eventId) =>
    let db :=
      if (e.tool_name.getD "").startsWith "mcp__" ∧ e.hook_event_name = "PostToolUse" then
        db.upsertMcpTool now e.session_id (e.tool_name.getD "") e.tool_response.successInferred 0
      else db
    let db :=
      if e.hook_event_name = "SessionEnd" then
        db.upsertSession now { id := e.session_id, ended_at := some e.timestamp }
      else db
    let eventItem : EventItem :=
      { id := eventId, sessionId := e.session_id, eventType := "hook",
        hookEventName := some e.hook_event_name, toolName := e.tool_name,
        content := match hookContent e with
          | some c => if c = "" then none else some c
          | none => none,
        timestamp := e.timestamp }
    let ws := (w.ws).broadcast (.event eventItem)
    let ws := ws.broadcast (.statsUpdate db.getStats)
    ({ db := db, ws := ws }, eventItem)

/-! ### Day-bucketed cost series (`Repository.getCostsByDay`)

Calendar days are abstracted as integers: `localDate ts` is the
local-timezone calendar day of the ISO timestamp `ts` (the SQL
`DATE(started_at, 'localtime')`), and `today` is the local day of the
current instant.  The source's `YYYY-MM-DD` strings are in bijection
with these day numbers, and adding one day to a JS `Date` at local
midnight advances the day number by one. -/

/-- One element of the series returned by `getCostsByDay`. -/
structure CostSummary where
  date : Int
  inputTokens : Nat
  outputTokens : Nat
  cacheReadTokens : Nat
  cacheWriteTokens : Nat
  costUsd : ℚ
  costWithoutCache : ℚ
  cacheSavings : ℚ
deriving DecidableEq, Repr

/-- The sessions whose local start day is `d` — the `GROUP BY
DATE(started_at, 'localtime')` group for that day.  Every day the fill
loop visits satisfies the query's `WHERE` bound `date ≥ today − days`,
so the filter is the whole of the query for those days. -/
def Db.sessionsOnDay (db : Db) (localDate : String → Int) (d : Int) : List Session :=
  db.sessions.filter (fun s => localDate s.started_at == d)

/-- The series element for one calendar day `d`: zeros when no session
started that day, else the `SUM(...)` aggregates of the day's group,
with the cache-savings estimate (`AVG_INPUT_RATE = 5.0`,
`AVG_CACHE_READ_RATE = 0.5`). -/
def Db.daySummary (db : Db) (localDate : String → Int) (d : Int) : CostSummary :=
  let rows := db.sessionsOnDay localDate d
  if rows.isEmpty then
    { date := d, inputTokens := 0, outputTokens := 0,
      cacheReadTokens := 0, cacheWriteTokens := 0,
      costUsd := 0, costWithoutCache := 0, cacheSavings := 0 }
  else
    let inputTokens : Nat := (rows.map (fun s => s.total_input_tokens)).sum
    let outputTokens : Nat := (rows.map (fun s => s.total_output_tokens)).sum
    let cacheReadTokens : Nat := (rows.map (fun s => s.total_cache_read_tokens)).sum
    let cacheWriteTokens : Nat := (rows.map (fun s => s.total_cache_write_tokens)).sum
    let costUsd : ℚ := (rows.map (fun s => s.total_cost_usd)).sum
    let cacheReadSavings := ((cacheReadTokens : ℚ) / 1000000) * (5 - 1 / 2)
    { date := d, inputTokens := inputTokens, outputTokens := outputTokens,
      cacheReadTokens := cacheReadTokens, cacheWriteTokens := cacheWriteTokens,
      costUsd := costUsd, costWithoutCache := costUsd + cacheReadSavings,
      cacheSavings := cacheReadSavings }

/-- Translation of `Repository.getCostsByDay`: the aggregation query
feeding `dataMap`, then the gap-filling loop from `today − days + 1` to
`today` inclusive. -/
def Db.getCostsByDay (db : Db) (localDate : String → Int) (today : Int)
    (days : Nat) : List CostSummary :=
  (List.range days).map (fun (i : Nat) => db.daySummary localDate (today - days + 1 + (i : Int)))

/-- A concrete one-line transcript file (a user entry with no uuid),
used to exhibit the cursor behavior of `parseFile` on re-read. -/
def entryOneLine : Entry :=
  { kind := .user (.text "hi"), uuid := none, parentUuid := none,
    timestamp := "T", cwd := none, gitBranch := none, version := none, raw := "r" }

def fileOneLine : TFile :=
  { path := "a/s1.jsonl", size := 12, lines := [.entry entryOneLine] }

def worldEmpty : World := { db := Db.empty, ws := { clients := [] } }

/-! ### Derived observers -/

/-- The stored session row with the given id, if any. -/
def Db.findSession (db : Db) (sid : String) : Option Session :=
  db.sessions.find? (fun s => s.id == sid)

/-- The five running totals of a session, all zero for an absent id. -/
structure Totals where
  input : Nat
  output : Nat
  cacheRead : Nat
  cacheWrite : Nat
  cost : ℚ
deriving DecidableEq, Repr

def Session.totals (s : Session) : Totals :=
  ⟨s.total_input_tokens, s.total_output_tokens,
   s.total_cache_read_tokens, s.total_cache_write_tokens, s.total_cost_usd⟩

def Db.sessionTotals (db : Db) (sid : String) : Totals :=
  match db.findSession sid with
  | some s => s.totals
  | none => ⟨0, 0, 0, 0, 0⟩

/-- The stored start timestamp of a session, if the session exists. -/
def Db.startedAt? (db : Db) (sid : String) : Option String :=
  (db.findSession sid).map (fun s => s.started_at)

/-- The `(invocation_count, success_count, error_count)` triple of an
`mcp_tools` row, all zero for an absent key. -/
def Db.mcpCounts (db : Db) (sid tool : String) : Nat × Nat × Nat :=
  match db.mcpTools.find? (fun t => t.session_id == sid && t.tool_name == tool) with
  | some t => (t.invocation_count, t.success_count, t.error_count)
  | none => (0, 0, 0)

/-- Pairwise uuid-distinctness of a list of event rows: a non-null
producer uuid occurs on at most one row. -/
def UuidUniqueL (l : List Event) : Prop :=
  l.Pairwise (fun a b => a.uuid.isSome → a.uuid ≠ b.uuid)

/-- The central anti-double-counting invariant: among stored events, a
non-null producer uuid occurs on at most one row. -/
def UuidUnique (db : Db) : Prop :=
  UuidUniqueL db.events

/-- The truthy producer uuid of an entry (the JS guard `entry.uuid &&`
treats the empty string as absent). -/
def truthyUuid (e : Entry) : Option String :=
  match e.uuid with
  | some u => if u = "" then none else some u
  | none => none

def isAssistant (e : Entry) : Bool :=
  match e.kind with
  | .assistant _ => true
  | _ => false

/-- The usage object of an assistant entry (dummy for other kinds). -/
def entryUsage (e : Entry) : TokenUsage :=
  match e.kind with
  | .assistant m => m.usage
  | _ => ⟨none, none, none, none⟩

/-- The model string of an assistant entry (dummy for other kinds). -/
def entryModel (e : Entry) : String :=
  match e.kind with
  | .assistant m => m.model
  | _ => ""

/-- The per-tool-statistic invariant: success and failure counts sum to
the invocation count, on every stored row. -/
def McpInvariant (db : Db) : Prop :=
  ∀ t ∈ db.mcpTools, t.success_count + t.error_count = t.invocation_count

/-- Folding a list of entries of one session through `processEntry`, as
one `parseFile` pass does line by line. -/
def processEntries (w : World) (now : String) (entries : List Entry)
    (sid : String) : World :=
  entries.foldl (fun w e => (processEntry w now e sid).1) w

/-- The row update applied by the `UPDATE sessions SET ...` branch. -/
def applyPatch (p : SessionPatch) (s : Session) : Session :=
  { s with
    started_at := match p.started_at with
      | some t => if t < s.started_at then t else s.started_at
      | none => s.started_at
    ended_at := match p.ended_at with
      | some t => some t
      | none => s.ended_at
    total_input_tokens := s.total_input_tokens + p.total_input_tokens.getD 0
    total_output_tokens := s.total_output_tokens + p.total_output_tokens.getD 0
    total_cost_usd := s.total_cost_usd + p.total_cost_usd.getD 0
    total_cache_read_tokens := s.total_cache_read_tokens + p.total_cache_read_tokens.getD 0
    total_cache_write_tokens := s.total_cache_write_tokens + p.total_cache_write_tokens.getD 0 }

/-- The row inserted by the `INSERT INTO sessions ...` branch. -/
def freshSession (now : String) (p : SessionPatch) : Session :=
  { id := p.id, project_path := jsOrNull p.project_path,
    git_branch := jsOrNull p.git_branch,
    started_at := jsOr p.started_at now, ended_at := p.ended_at,
    total_input_tokens := p.total_input_tokens.getD 0,
    total_output_tokens := p.total_output_tokens.getD 0,
    total_cache_read_tokens := 0, total_cache_write_tokens := 0,
    total_cost_usd := p.total_cost_usd.getD 0, version := jsOrNull p.version }

/-- The row update applied by the `UPDATE mcp_tools SET ...` branch. -/
def mcpUpdate (now : String) (success : Bool) (dur : Nat) (t : McpTool) : McpTool :=
  { t with invocation_count := t.invocation_count + 1
           success_count := t.success_count + (if success then 1 else 0)
           error_count := t.error_count + (if success then 0 else 1)
           total_duration_ms := t.total_duration_ms + dur
           last_used_at := now }

/-- The row inserted by the `INSERT INTO mcp_tools ...` branch. -/
def mcpFresh (now sid tool : String) (success : Bool) (dur : Nat) : McpTool :=
  { session_id := sid, tool_name := tool,
    server_name := if tool.startsWith "mcp__" then jsOrNull ((tool.splitOn "__").get? 1) else none,
    invocation_count := 1, success_count := if success then 1 else 0,
    error_count := if success then 0 else 1, total_duration_ms := dur,
    last_used_at := now }

/-- Freshness of a batch of records with respect to a store: no record's
truthy uuid is already stored, and no two records share one. -/
def FreshUuids (db : Db) (entries : List Entry) : Prop :=
  (∀ e ∈ entries, ∀ u, truthyUuid e = some u → db.uuidStored u = false)
  ∧ List.Pairwise (fun a b => ∀ u, truthyUuid a = some u → truthyUuid b ≠ some u) entries

/-- Two concrete assistant-turn records used to instantiate the additive
totals property. -/
def entryA1 : Entry :=
  { kind := .assistant { content := [], usage := ⟨some 1000000, none, none, none⟩, model := "x" },
    uuid := none, parentUuid := none, timestamp := "T1", cwd := none,
    gitBranch := none, version := none, raw := "r1" }

def entryA2 : Entry :=
  { kind := .assistant { content := [], usage := ⟨some 2000000, some 1000000, none, none⟩, model := "x" },
    uuid := none, parentUuid := none, timestamp := "T2", cwd := none,
    gitBranch := none, version := none, raw := "r2" }

/-! ### Supporting lemmas: keyed list updates -/

theorem find?_map_keyed {α : Type} (l : List α) (p : α → Bool) (upd : α → α)
    (h : ∀ a, p (upd a) = p a) :
    (l.map (fun a => if p a then upd a else a)).find? p = (l.find? p).map upd := by
  induction l with
  | nil => rfl
  | cons a t ih =>
    by_cases hpa : p a
    · simp [List.find?, hpa, h a]
    · simp [List.find?, hpa, ih]

theorem find?_append_of_none {α : Type} (l : List α) (x : α) (p : α → Bool)
    (h : ∀ y ∈ l, p y = false) :
    (l ++ [x]).find? p = if p x then some x else none := by
  induction l with
  | nil => cases hx : p x <;> simp [List.find?, hx]
  | cons a t ih =>
    have hpa : p a = false := h a (by simp)
    simp only [List.cons_append, List.find?, hpa]
    exact ih (fun y hy => h y (by simp [hy]))

/-! ### Supporting lemmas: uuid uniqueness under appends -/

theorem uuidUniqueL_append (l : List Event) (ev : Event)
    (hcross : ∀ a ∈ l, a.uuid.isSome → a.uuid ≠ ev.uuid)
    (h : UuidUniqueL l) : UuidUniqueL (l ++ [ev]) := by
  unfold UuidUniqueL at *
  rw [List.pairwise_append]
  refine ⟨h, by simp, ?_⟩
  intro a ha b hb
  have hb' : b = ev := by simpa using hb
  subst hb'
  exact hcross a ha

theorem uuidUniqueL_append_none (l : List Event) (ev : Event)
    (hu : ev.uuid = none) (h : UuidUniqueL l) : UuidUniqueL (l ++ [ev]) := by
  apply uuidUniqueL_append l ev ?_ h
  intro a _ hsome
  rw [hu]
  intro hcontra
  rw [hcontra] at hsome
  simp at hsome

/-! ### Supporting lemmas: frame conditions of the store operations -/

@[simp] theorem upsertSession_events (db : Db) (now : String) (p : SessionPatch) :
    (db.upsertSession now p).events = db.events := by
  unfold Db.upsertSession
  cases db.sessions.find? (fun s => s.id == p.id) <;> rfl

@[simp] theorem upsertSession_mcpTools (db : Db) (now : String) (p : SessionPatch) :
    (db.upsertSession now p).mcpTools = db.mcpTools := by
  unfold Db.upsertSession
  cases db.sessions.find? (fun s => s.id == p.id) <;> rfl

@[simp] theorem upsertSession_file_positions (db : Db) (now : String) (p : SessionPatch) :
    (db.upsertSession now p).file_positions = db.file_positions := by
  unfold Db.upsertSession
  cases db.sessions.find? (fun s => s.id == p.id) <;> rfl

@[simp] theorem upsertMcpTool_sessions (db : Db) (now sid tool : String)
    (success : Bool) (dur : Nat) :
    (db.upsertMcpTool now sid tool success dur).sessions = db.sessions := by
  unfold Db.upsertMcpTool
  cases db.mcpTools.find? (fun t => t.session_id == sid && t.tool_name == tool) <;> rfl

@[simp] theorem upsertMcpTool_events (db : Db) (now sid tool : String)
    (success : Bool) (dur : Nat) :
    (db.upsertMcpTool now sid tool success dur).events = db.events := by
  unfold Db.upsertMcpTool
  cases db.mcpTools.find? (fun t => t.session_id == sid && t.tool_name == tool) <;> rfl

@[simp] theorem setFilePosition_events (db : Db) (path : String) (pos : Nat) :
    (db.setFilePosition path pos).events = db.events := by
  unfold Db.setFilePosition
  split <;> rfl

@[simp] theorem setFilePosition_sessions (db : Db) (path : String) (pos : Nat) :
    (db.setFilePosition path pos).sessions = db.sessions := by
  unfold Db.setFilePosition
  split <;> rfl

theorem insertEvent_eq (db : Db) (e : NewEvent) :
    db.insertEvent e =
      if db.insertConflict e then none
      else some ({ db with events := db.events ++ [e.row (db.events.length + 1)] },
        db.events.length + 1) := rfl

theorem insertEvent_of_no_conflict (db : Db) (e : NewEvent)
    (h : db.insertConflict e = false) :
    db.insertEvent e =
      some ({ db with events := db.events ++ [e.row (db.events.length + 1)] },
        db.events.length + 1) := by
  simp [insertEvent_eq, h]

@[simp] theorem insertConflict_none_uuid (db : Db) (e : NewEvent)
    (h : e.uuid = none) : db.insertConflict e = false := by
  unfold Db.insertConflict
  rw [h]

/-! ### Supporting lemmas: block-scan and insert frame conditions -/

@[simp] theorem upsertMcpTool_file_positions (db : Db) (now sid tool : String)
    (success : Bool) (dur : Nat) :
    (db.upsertMcpTool now sid tool success dur).file_positions = db.file_positions := by
  unfold Db.upsertMcpTool
  cases db.mcpTools.find? (fun t => t.session_id == sid && t.tool_name == tool) <;> rfl

theorem assistantBlockStep_db (now sid : String) (a : String × List String × Db)
    (b : ContentBlock) :
    (assistantBlockStep now sid a b).2.2.sessions = a.2.2.sessions
  ∧ (assistantBlockStep now sid a b).2.2.events = a.2.2.events
  ∧ (assistantBlockStep now sid a b).2.2.file_positions = a.2.2.file_positions := by
  obtain ⟨txt, tools, db⟩ := a
  cases b with
  | text t => exact ⟨rfl, rfl, rfl⟩
  | thinking th =>
    by_cases hth : th = "" <;> simp [assistantBlockStep, hth]
  | tool_use name inp =>
    cases hs : name.startsWith "mcp__" <;> cases inp <;>
      simp [assistantBlockStep, hs]
  | otherBlock => exact ⟨rfl, rfl, rfl⟩

theorem foldl_blockStep_db (now sid : String) (blocks : List ContentBlock)
    (acc : String × List String × Db) :
    ((blocks.foldl (assistantBlockStep now sid) acc).2.2).sessions = acc.2.2.sessions
  ∧ ((blocks.foldl (assistantBlockStep now sid) acc).2.2).events = acc.2.2.events
  ∧ ((blocks.foldl (assistantBlockStep now sid) acc).2.2).file_positions = acc.2.2.file_positions := by
  induction blocks generalizing acc with
  | nil => exact ⟨rfl, rfl, rfl⟩
  | cons b rest ih =>
    rw [List.foldl_cons]
    have hs := assistantBlockStep_db now sid acc b
    have hr := ih (assistantBlockStep now sid acc b)
    exact ⟨hr.1.trans hs.1, hr.2.1.trans hs.2.1, hr.2.2.trans hs.2.2⟩

theorem assistantScan_sessions (now sid : String) (db : Db) (blocks : List ContentBlock) :
    (assistantScan now sid db blocks).2.2.sessions = db.sessions :=
  (foldl_blockStep_db now sid blocks ("", [], db)).1

theorem assistantScan_events (now sid : String) (db : Db) (blocks : List ContentBlock) :
    (assistantScan now sid db blocks).2.2.events = db.events :=
  (foldl_blockStep_db now sid blocks ("", [], db)).2.1

theorem assistantScan_file_positions (now sid : String) (db : Db) (blocks : List ContentBlock) :
    (assistantScan now sid db blocks).2.2.file_positions = db.file_positions :=
  (foldl_blockStep_db now sid blocks ("", [], db)).2.2

theorem insertEvent_cases (db : Db) (e : NewEvent) :
    db.insertEvent e = none ∨
    db.insertEvent e = some ({ db with events := db.events ++ [e.row (db.events.length + 1)] },
      db.events.length + 1) := by
  rw [insertEvent_eq]
  by_cases h : db.insertConflict e = true
  · left; rw [if_pos h]
  · right; rw [if_neg h]

theorem insertEvent_some_uuidUnique (db : Db) (e : NewEvent) (db' : Db) (id : Nat)
    (h : db.insertEvent e = some (db', id)) (hun : UuidUniqueL db.events) :
    UuidUniqueL db'.events := by
  rw [insertEvent_eq] at h
  by_cases hc : db.insertConflict e = true
  · rw [if_pos hc] at h
    exact absurd h (by simp)
  · rw [if_neg hc] at h
    have hdb : db' = { db with events := db.events ++ [e.row (db.events.length + 1)] } :=
      ((Prod.mk.injEq _ _ _ _).mp (Option.some.inj h)).1.symm
    subst hdb
    apply uuidUniqueL_append _ _ ?_ hun
    intro a ha hsome
    cases hu : e.uuid with
    | none =>
      rw [show (e.row (db.events.length + 1)).uuid = e.uuid from rfl, hu]
      intro hcon
      rw [hcon] at hsome
      simp at hsome
    | some u =>
      rw [show (e.row (db.events.length + 1)).uuid = e.uuid from rfl, hu]
      unfold Db.insertConflict at hc
      rw [hu] at hc
      unfold Db.uuidStored at hc
      simp only [List.any_eq_true, not_exists, not_and, Bool.not_eq_true] at hc
      intro hcon
      have hfalse := hc a ha
      rw [hcon] at hfalse
      simp at hfalse

/-! ### Supporting lemmas: `upsertSession` characterization -/

theorem upsertSession_eq_update (db : Db) (now : String) (p : SessionPatch)
    (s : Session) (h : db.findSession p.id = some s) :
    db.upsertSession now p =
      { db with sessions := (db.sessions.map (fun t => if t.id == p.id then applyPatch p t else t)) } := by
  unfold Db.findSession at h
  unfold Db.upsertSession
  rw [h]; rfl

theorem upsertSession_eq_insert (db : Db) (now : String) (p : SessionPatch)
    (h : db.findSession p.id = none) :
    db.upsertSession now p =
      { db with sessions := db.sessions ++ [freshSession now p] } := by
  unfold Db.findSession at h
  unfold Db.upsertSession
  rw [h]; rfl

theorem findSession_upsert_of_exists (db : Db) (now : String) (p : SessionPatch)
    (s : Session) (h : db.findSession p.id = some s) :
    (db.upsertSession now p).findSession p.id = some (applyPatch p s) := by
  rw [upsertSession_eq_update db now p s h]
  unfold Db.findSession at h ⊢
  rw [find?_map_keyed db.sessions (fun t => t.id == p.id) (applyPatch p) (fun a => rfl), h]
  rfl

theorem findSession_upsert_of_absent (db : Db) (now : String) (p : SessionPatch)
    (h : db.findSession p.id = none) :
    (db.upsertSession now p).findSession p.id = some (freshSession now p) := by
  rw [upsertSession_eq_insert db now p h]
  unfold Db.findSession at h ⊢
  rw [find?_append_of_none _ _ _ (fun y hy => by
    have := List.find?_eq_none.mp h y hy
    simpa using this)]
  simp [freshSession]

theorem sessionTotals_upsert_of_exists (db : Db) (now : String) (p : SessionPatch)
    (s : Session) (h : db.findSession p.id = some s) :
    (db.upsertSession now p).sessionTotals p.id =
      ⟨s.total_input_tokens + p.total_input_tokens.getD 0,
       s.total_output_tokens + p.total_output_tokens.getD 0,
       s.total_cache_read_tokens + p.total_cache_read_tokens.getD 0,
       s.total_cache_write_tokens + p.total_cache_write_tokens.getD 0,
       s.total_cost_usd + p.total_cost_usd.getD 0⟩ := by
  simp [Db.sessionTotals, findSession_upsert_of_exists db now p s h,
    applyPatch, Session.totals]

theorem sessionTotals_upsert_of_absent (db : Db) (now : String) (p : SessionPatch)
    (h : db.findSession p.id = none) :
    (db.upsertSession now p).sessionTotals p.id =
      ⟨p.total_input_tokens.getD 0, p.total_output_tokens.getD 0, 0, 0,
       p.total_cost_usd.getD 0⟩ := by
  simp [Db.sessionTotals, findSession_upsert_of_absent db now p h,
    freshSession, Session.totals]

/-! ### Supporting lemmas: `upsertMcpTool` characterization -/

theorem upsertMcpTool_eq_update (db : Db) (now sid tool : String) (success : Bool)
    (dur : Nat) (t : McpTool)
    (h : db.mcpTools.find? (fun x => x.session_id == sid && x.tool_name == tool) = some t) :
    db.upsertMcpTool now sid tool success dur =
      { db with mcpTools := (db.mcpTools.map (fun x => if x.session_id == sid && x.tool_name == tool then mcpUpdate now success dur x else x)) } := by
  unfold Db.upsertMcpTool
  rw [h]; rfl

theorem upsertMcpTool_eq_insert (db : Db) (now sid tool : String) (success : Bool)
    (dur : Nat)
    (h : db.mcpTools.find? (fun x => x.session_id == sid && x.tool_name == tool) = none) :
    db.upsertMcpTool now sid tool success dur =
      { db with mcpTools := db.mcpTools ++ [mcpFresh now sid tool success dur] } := by
  unfold Db.upsertMcpTool
  rw [h]; rfl

theorem mcpCounts_upsert (db : Db) (now sid tool : String) (success : Bool)
    (dur : Nat) :
    (db.upsertMcpTool now sid tool success dur).mcpCounts sid tool =
      ((db.mcpCounts sid tool).1 + 1,
       (db.mcpCounts sid tool).2.1 + (if success then 1 else 0),
       (db.mcpCounts sid tool).2.2 + (if success then 0 else 1)) := by
  cases h : db.mcpTools.find? (fun x => x.session_id == sid && x.tool_name == tool) with
  | some t =>
    rw [upsertMcpTool_eq_update db now sid tool success dur t h]
    unfold Db.mcpCounts
    rw [show ({ db with mcpTools := (db.mcpTools.map (fun x => if x.session_id == sid && x.tool_name == tool then mcpUpdate now success dur x else x)) } : Db).mcpTools = (db.mcpTools.map (fun x => if x.session_id == sid && x.tool_name == tool then mcpUpdate now success dur x else x)) from rfl]
    rw [find?_map_keyed db.mcpTools (fun x => x.session_id == sid && x.tool_name == tool)
      (mcpUpdate now success dur) (fun a => rfl), h]
    rfl
  | none =>
    rw [upsertMcpTool_eq_insert db now sid tool success dur h]
    unfold Db.mcpCounts
    rw [show ({ db with mcpTools := db.mcpTools ++ [mcpFresh now sid tool success dur] } : Db).mcpTools = db.mcpTools ++ [mcpFresh now sid tool success dur] from rfl]
    rw [find?_append_of_none _ _ _ (fun y hy => by
      have := List.find?_eq_none.mp h y hy
      simpa using this), h]
    simp [mcpFresh]

/-- Per-row preservation of the counts equation by the update branch. -/
theorem mcpTool_update_equation (t : McpTool) (success : Bool)
    (h : t.success_count + t.error_count = t.invocation_count) :
    (t.success_count + (if success then 1 else 0))
      + (t.error_count + (if success then 0 else 1)) = t.invocation_count + 1 := by
  cases success <;> simp <;> omega

/-- Structure of one `processHookEvent` call: it appends exactly one
event row, that row has a null uuid, and the returned item carries the
fresh row id.  Holds for every broadcaster state. -/
theorem processHookEvent_shape (w : World) (now : String) (e : HookEvent) :
    (processHookEvent w now e).1.db.events =
      w.db.events ++ [(hookNewEvent e).row (w.db.events.length + 1)]
  ∧ (hookNewEvent e).uuid = none
  ∧ (processHookEvent w now e).2.id = w.db.events.length + 1 := by
  have hins := insertEvent_of_no_conflict
    (w.db.upsertSession now { id := e.session_id, started_at := some e.timestamp })
    (hookNewEvent e) (insertConflict_none_uuid _ _ rfl)
  unfold processHookEvent
  dsimp only []
  rw [hins]
  dsimp only []
  refine ⟨?_, rfl, ?_⟩
  · split_ifs <;> simp
  · simp

/-! ### Supporting lemmas: `processEntry` shape and uuid-uniqueness -/

theorem uuidUnique_of_events_eq (db db' : Db) (h : db'.events = db.events)
    (hun : UuidUnique db) : UuidUnique db' := by
  unfold UuidUnique at *
  rw [h]
  exact hun

/-- One `processEntry` call either leaves the event table unchanged and
returns no item, or appends exactly one row carrying the entry's uuid
and returns an item. -/
theorem processEntry_shape (w : World) (now : String) (entry : Entry) (sid : String) :
    ((processEntry w now entry sid).1.db.events = w.db.events
      ∧ (processEntry w now entry sid).2 = none)
  ∨ (∃ ev : Event, (processEntry w now entry sid).1.db.events = w.db.events ++ [ev]
      ∧ ev.uuid = entry.uuid ∧ ((processEntry w now entry sid).2).isSome = true) := by
  unfold processEntry
  split
  · left; exact ⟨rfl, rfl⟩
  · cases hk : entry.kind with
    | user msg =>
      dsimp only []
      unfold processUserEntry
      rcases insertEvent_cases (w.db.upsertSession now (seedPatch entry sid))
          (userNewEvent entry msg sid) with h | h <;> rw [h] <;> dsimp only []
      · left
        refine ⟨?_, rfl⟩
        simp
      · right
        refine ⟨(userNewEvent entry msg sid).row
            ((w.db.upsertSession now (seedPatch entry sid)).events.length + 1), ?_, rfl, rfl⟩
        simp
    | assistant m =>
      dsimp only []
      unfold processAssistantEntry
      dsimp only []
      rcases insertEvent_cases
          ((assistantScan now sid (w.db.upsertSession now (seedPatch entry sid)) m.content).2.2.upsertSession
            now (totalsPatch sid m))
          (assistantNewEvent entry m sid
            (assistantScan now sid (w.db.upsertSession now (seedPatch entry sid)) m.content).1
            (assistantScan now sid (w.db.upsertSession now (seedPatch entry sid)) m.content).2.1)
          with h | h <;> rw [h] <;> dsimp only []
      · left
        refine ⟨?_, rfl⟩
        simp [assistantScan_events]
      · right
        refine ⟨(assistantNewEvent entry m sid
            (assistantScan now sid (w.db.upsertSession now (seedPatch entry sid)) m.content).1
            (assistantScan now sid (w.db.upsertSession now (seedPatch entry sid)) m.content).2.1).row
            (((assistantScan now sid (w.db.upsertSession now (seedPatch entry sid)) m.content).2.2.upsertSession
              now (totalsPatch sid m)).events.length + 1), ?_, rfl, rfl⟩
        simp [assistantScan_events]
    | otherKind =>
      dsimp only []
      left
      refine ⟨?_, rfl⟩
      simp

/-- `processEntry` preserves the global uuid-uniqueness invariant. -/
theorem processEntry_uuidUnique (w : World) (now : String) (entry : Entry) (sid : String)
    (hun : UuidUnique w.db) : UuidUnique (processEntry w now entry sid).1.db := by
  unfold processEntry
  split
  · exact hun
  · have hseed : UuidUnique (w.db.upsertSession now (seedPatch entry sid)) :=
      uuidUnique_of_events_eq _ _ (upsertSession_events _ _ _) hun
    cases hk : entry.kind with
    | user msg =>
      dsimp only []
      unfold processUserEntry
      rcases insertEvent_cases (w.db.upsertSession now (seedPatch entry sid))
          (userNewEvent entry msg sid) with h | h <;> rw [h] <;> dsimp only []
      · exact hseed
      · exact insertEvent_some_uuidUnique _ _ _ _ h hseed
    | assistant m =>
      dsimp only []
      unfold processAssistantEntry
      dsimp only []
      have hscan : UuidUnique
          ((assistantScan now sid (w.db.upsertSession now (seedPatch entry sid)) m.content).2.2.upsertSession
            now (totalsPatch sid m)) := by
        apply uuidUnique_of_events_eq _ _ ?_ hun
        rw [upsertSession_events, assistantScan_events, upsertSession_events]
      rcases insertEvent_cases
          ((assistantScan now sid (w.db.upsertSession now (seedPatch entry sid)) m.content).2.2.upsertSession
            now (totalsPatch sid m))
          (assistantNewEvent entry m sid
            (assistantScan now sid (w.db.upsertSession now (seedPatch entry sid)) m.content).1
            (assistantScan now sid (w.db.upsertSession now (seedPatch entry sid)) m.content).2.1)
          with h | h <;> rw [h] <;> dsimp only []
      · exact hscan
      · exact insertEvent_some_uuidUnique _ _ _ _ h hscan
    | otherKind =>
      dsimp only []
      exact hseed

/-- One line step of `parseFile` preserves uuid uniqueness. -/
theorem parseLineStep_uuidUnique (now sid : String) (acc : World × List EventItem)
    (line : RawLine) (hun : UuidUnique acc.1.db) :
    UuidUnique (parseLineStep now sid acc line).1.db := by
  cases line with
  | blank => exact hun
  | malformed => exact hun
  | entry e =>
    have hpe := processEntry_uuidUnique acc.1 now e sid hun
    unfold parseLineStep
    dsimp only []
    cases h : (processEntry acc.1 now e sid).2 <;> dsimp only [] <;> exact hpe

/-- A whole `parseFile` pass preserves uuid uniqueness. -/
theorem parseFile_uuidUnique (w : World) (now : String) (f : TFile)
    (hun : UuidUnique w.db) : UuidUnique (parseFile w now f).1.db := by
  unfold parseFile
  dsimp only []
  apply uuidUnique_of_events_eq _ _ (setFilePosition_events _ _ _)
  have hfold : ∀ (lines : List RawLine) (acc : World × List EventItem),
      UuidUnique acc.1.db →
      UuidUnique ((lines.foldl (parseLineStep now (sessionIdOfPath f.path)) acc).1.db) := by
    intro lines
    induction lines with
    | nil => intro acc h; exact h
    | cons l rest ih =>
      intro acc h
      rw [List.foldl_cons]
      exact ih _ (parseLineStep_uuidUnique now (sessionIdOfPath f.path) acc l h)
  exact hfold _ (w, []) hun

/-- `processHookEvent` preserves uuid uniqueness (its row is null-uuid). -/
theorem processHookEvent_uuidUnique (w : World) (now : String) (e : HookEvent)
    (hun : UuidUnique w.db) : UuidUnique (processHookEvent w now e).1.db := by
  have h := processHookEvent_shape w now e
  unfold UuidUnique at *
  rw [h.1]
  exact uuidUniqueL_append_none _ _ rfl hun

/-- A record whose truthy uuid is already stored is dropped whole: no
event, no session delta, state untouched. -/
theorem processEntry_dedup_noop (w : World) (now : String) (entry : Entry) (sid : String)
    (u : String) (hu : truthyUuid entry = some u)
    (hstored : w.db.uuidStored u = true) :
    processEntry w now entry sid = (w, none) := by
  have hcond : (uuidTruthyB entry && w.db.checkEventExists sid (entry.uuid.getD "")) = true := by
    cases he : entry.uuid with
    | none => simp [truthyUuid, he] at hu
    | some v =>
      by_cases hemp : v = ""
      · simp [truthyUuid, he, hemp] at hu
      · have hv : v = u := by
          have h := hu
          simp [truthyUuid, he, hemp] at h
          exact h
        subst hv
        simp [uuidTruthyB, he, Db.checkEventExists, hemp, hstored]
  unfold processEntry
  rw [if_pos hcond]

theorem uuid_of_truthy (e : Entry) (u : String) (h : truthyUuid e = some u) :
    e.uuid = some u := by
  unfold truthyUuid at h
  cases he : e.uuid with
  | none =>
    rw [he] at h
    have h' : (none : Option String) = some u := h
    cases h'
  | some v =>
    rw [he] at h
    have h' : (if v = "" then none else some v) = some u := h
    by_cases hemp : v = ""
    · rw [if_pos hemp] at h'; cases h'
    · rw [if_neg hemp] at h'
      exact h' 

theorem getFilePosition_set (db : Db) (path : String) (pos : Nat) :
    (db.setFilePosition path pos).getFilePosition path = pos := by
  unfold Db.setFilePosition Db.getFilePosition
  by_cases h : db.file_positions.any (fun q => q.1 == path) = true
  · rw [if_pos h]
    rw [show ({ db with file_positions := (db.file_positions.map (fun q => if q.1 == path then (q.1, pos) else q)) } : Db).file_positions = (db.file_positions.map (fun q => if q.1 == path then (q.1, pos) else q)) from rfl]
    rw [find?_map_keyed db.file_positions (fun q => q.1 == path) (fun q => (q.1, pos)) (fun a => rfl)]
    cases hf : db.file_positions.find? (fun q => q.1 == path) with
    | none =>
      obtain ⟨x, hx, hpx⟩ := List.any_eq_true.mp h
      have := List.find?_eq_none.mp hf x hx
      rw [hpx] at this
      simp at this
    | some q => rfl
  · rw [if_neg h]
    rw [show ({ db with file_positions := db.file_positions ++ [(path, pos)] } : Db).file_positions = db.file_positions ++ [(path, pos)] from rfl]
    rw [find?_append_of_none _ _ _ ?_]
    · simp
    · intro y hy
      by_cases hcon : (y.1 == path) = true
      · exact absurd (List.any_eq_true.mpr ⟨y, hy, hcon⟩) h
      · simpa using hcon

theorem parseLineStep_entry_world (now sid : String) (acc : World × List EventItem)
    (e : Entry) :
    (parseLineStep now sid acc (.entry e)).1 = (processEntry acc.1 now e sid).1 := by
  cases h : (processEntry acc.1 now e sid).2 <;> simp [parseLineStep, h]

/-- Processing a user entry with no uuid always appends one event row. -/
theorem processEntry_user_none_events (w : World) (now sid : String) (e : Entry)
    (msg : UserContent) (hk : e.kind = .user msg) (hu : e.uuid = none) :
    (processEntry w now e sid).1.db.events = w.db.events ++
      [(userNewEvent e msg sid).row (w.db.events.length + 1)] := by
  have hguard : (uuidTruthyB e && w.db.checkEventExists sid (e.uuid.getD "")) = false := by
    simp [uuidTruthyB, hu]
  unfold processEntry
  rw [if_neg (by simp [hguard])]
  rw [hk]
  dsimp only []
  unfold processUserEntry
  rw [insertEvent_of_no_conflict _ _ (insertConflict_none_uuid _ _ hu)]
  dsimp only []
  simp

/-- A `parseFile` pass over a one-user-line no-uuid file always appends
one event row, regardless of the stored cursor. -/
theorem parseFile_one_entry_events (w : World) (now path : String) (size : Nat)
    (e : Entry) (msg : UserContent) (hk : e.kind = .user msg) (hu : e.uuid = none) :
    (parseFile w now ⟨path, size, [.entry e]⟩).1.db.events.length =
      w.db.events.length + 1 := by
  unfold parseFile
  dsimp only []
  rw [setFilePosition_events]
  rw [show ([RawLine.entry e].filter notBlank) = [RawLine.entry e] from rfl,
    List.foldl_cons, List.foldl_nil]
  rw [parseLineStep_entry_world]
  rw [processEntry_user_none_events w now (sessionIdOfPath path) e msg hk hu]
  simp

/-! ### Supporting lemmas: session totals along the assistant pipeline -/

theorem sessionTotals_of_sessions_eq (db db' : Db) (sid : String)
    (h : db'.sessions = db.sessions) : db'.sessionTotals sid = db.sessionTotals sid := by
  unfold Db.sessionTotals Db.findSession
  rw [h]

theorem findSession_of_sessions_eq (db db' : Db) (sid : String)
    (h : db'.sessions = db.sessions) : db'.findSession sid = db.findSession sid := by
  unfold Db.findSession
  rw [h]

theorem totals_upsert_delta (db : Db) (now : String) (p : SessionPatch)
    (hsome : (db.findSession p.id).isSome = true) :
    (db.upsertSession now p).sessionTotals p.id =
      ⟨(db.sessionTotals p.id).input + p.total_input_tokens.getD 0,
       (db.sessionTotals p.id).output + p.total_output_tokens.getD 0,
       (db.sessionTotals p.id).cacheRead + p.total_cache_read_tokens.getD 0,
       (db.sessionTotals p.id).cacheWrite + p.total_cache_write_tokens.getD 0,
       (db.sessionTotals p.id).cost + p.total_cost_usd.getD 0⟩ := by
  cases hf : db.findSession p.id with
  | none => rw [hf] at hsome; simp at hsome
  | some s =>
    rw [sessionTotals_upsert_of_exists db now p s hf]
    unfold Db.sessionTotals
    rw [hf]
    rfl

theorem upsertSession_no_totals (db : Db) (now : String) (p : SessionPatch)
    (h1 : p.total_input_tokens = none) (h2 : p.total_output_tokens = none)
    (h3 : p.total_cache_read_tokens = none) (h4 : p.total_cache_write_tokens = none)
    (h5 : p.total_cost_usd = none) :
    (db.upsertSession now p).sessionTotals p.id = db.sessionTotals p.id
  ∧ ((db.upsertSession now p).findSession p.id).isSome = true := by
  cases hf : db.findSession p.id with
  | some s =>
    refine ⟨?_, ?_⟩
    · rw [sessionTotals_upsert_of_exists db now p s hf, h1, h2, h3, h4, h5]
      unfold Db.sessionTotals
      rw [hf]
      simp [Session.totals]
    · rw [findSession_upsert_of_exists db now p s hf]; rfl
  | none =>
    refine ⟨?_, ?_⟩
    · rw [sessionTotals_upsert_of_absent db now p hf, h1, h2, h5]
      unfold Db.sessionTotals
      rw [hf]
      rfl
    · rw [findSession_upsert_of_absent db now p hf]; rfl

theorem truthy_ne_empty (e : Entry) (u : String) (h : truthyUuid e = some u) : u ≠ "" := by
  unfold truthyUuid at h
  cases he : e.uuid with
  | none =>
    rw [he] at h
    have h' : (none : Option String) = some u := h
    cases h'
  | some v =>
    rw [he] at h
    have h' : (if v = "" then none else some v) = some u := h
    by_cases hemp : v = ""
    · rw [if_pos hemp] at h'; cases h'
    · rw [if_neg hemp] at h'
      rw [← Option.some.inj h']
      exact hemp

theorem guard_false_of_fresh (db : Db) (sid : String) (e : Entry)
    (hf : ∀ u, truthyUuid e = some u → db.uuidStored u = false) :
    (uuidTruthyB e && db.checkEventExists sid (e.uuid.getD "")) = false := by
  cases he : e.uuid with
  | none => simp [uuidTruthyB, he]
  | some v =>
    by_cases hemp : v = ""
    · simp [uuidTruthyB, he, hemp]
    · have htr : truthyUuid e = some v := by simp [truthyUuid, he, hemp]
      have hst := hf v htr
      simp [uuidTruthyB, he, hemp, Db.checkEventExists, hst]

theorem uuidStored_after_processEntry (w : World) (now sid : String) (e : Entry)
    (u : String) (hne : ∀ v, truthyUuid e = some v → v ≠ u) (hu : u ≠ "")
    (hst : w.db.uuidStored u = false) :
    (processEntry w now e sid).1.db.uuidStored u = false := by
  rcases processEntry_shape w now e sid with ⟨heq, _⟩ | ⟨ev, hev, huuid, _⟩
  · unfold Db.uuidStored at *
    rw [heq]
    exact hst
  · unfold Db.uuidStored at *
    rw [hev, List.any_append, hst]
    simp only [Bool.false_or, List.any_cons, List.any_nil, Bool.or_false]
    rw [huuid]
    cases he : e.uuid with
    | none => rfl
    | some v =>
      by_cases hemp : v = ""
      · subst hemp
        simp
        exact fun hcon => hu hcon.symm
      · have htr : truthyUuid e = some v := by simp [truthyUuid, he, hemp]
        have hvu := hne v htr
        simp [hvu]

/-- Totals delta of one assistant entry through `processEntry`: the
session's five totals each grow by that record's contribution, with
`totalInput` semantics for the input column. -/
theorem processEntry_assistant_totals (w : World) (now sid : String) (e : Entry)
    (m : AssistantMessage) (hm : e.kind = .assistant m)
    (hguard : (uuidTruthyB e && w.db.checkEventExists sid (e.uuid.getD "")) = false) :
    (processEntry w now e sid).1.db.sessionTotals sid =
      ⟨(w.db.sessionTotals sid).input + (extractTokens m.usage).totalInput,
       (w.db.sessionTotals sid).output + (extractTokens m.usage).output,
       (w.db.sessionTotals sid).cacheRead + (extractTokens m.usage).cacheRead,
       (w.db.sessionTotals sid).cacheWrite + (extractTokens m.usage).cacheWrite,
       (w.db.sessionTotals sid).cost + calculateCost m.model m.usage⟩ := by
  have hseed := upsertSession_no_totals w.db now (seedPatch e sid) rfl rfl rfl rfl rfl
  have hseedT : (w.db.upsertSession now (seedPatch e sid)).sessionTotals sid =
      w.db.sessionTotals sid := hseed.1
  have hseedS : ((w.db.upsertSession now (seedPatch e sid)).findSession sid).isSome = true :=
    hseed.2
  have hscanS : (assistantScan now sid (w.db.upsertSession now (seedPatch e sid)) m.content).2.2.sessions =
      (w.db.upsertSession now (seedPatch e sid)).sessions :=
    assistantScan_sessions now sid (w.db.upsertSession now (seedPatch e sid)) m.content
  have hscanT : (assistantScan now sid (w.db.upsertSession now (seedPatch e sid)) m.content).2.2.sessionTotals sid =
      w.db.sessionTotals sid :=
    (sessionTotals_of_sessions_eq _ _ sid hscanS).trans hseedT
  have hscanF : ((assistantScan now sid (w.db.upsertSession now (seedPatch e sid)) m.content).2.2.findSession sid).isSome = true := by
    rw [findSession_of_sessions_eq _ _ sid hscanS]
    exact hseedS
  have htot : ((assistantScan now sid (w.db.upsertSession now (seedPatch e sid)) m.content).2.2.upsertSession now (totalsPatch sid m)).sessionTotals sid =
      ⟨((assistantScan now sid (w.db.upsertSession now (seedPatch e sid)) m.content).2.2.sessionTotals sid).input + (extractTokens m.usage).totalInput,
       ((assistantScan now sid (w.db.upsertSession now (seedPatch e sid)) m.content).2.2.sessionTotals sid).output + (extractTokens m.usage).output,
       ((assistantScan now sid (w.db.upsertSession now (seedPatch e sid)) m.content).2.2.sessionTotals sid).cacheRead + (extractTokens m.usage).cacheRead,
       ((assistantScan now sid (w.db.upsertSession now (seedPatch e sid)) m.content).2.2.sessionTotals sid).cacheWrite + (extractTokens m.usage).cacheWrite,
       ((assistantScan now sid (w.db.upsertSession now (seedPatch e sid)) m.content).2.2.sessionTotals sid).cost + calculateCost m.model m.usage⟩ :=
    totals_upsert_delta _ now (totalsPatch sid m) hscanF
  unfold processEntry
  rw [if_neg (by simp [hguard])]
  rw [hm]
  dsimp only []
  unfold processAssistantEntry
  dsimp only []
  rcases insertEvent_cases
      ((assistantScan now sid (w.db.upsertSession now (seedPatch e sid)) m.content).2.2.upsertSession now (totalsPatch sid m))
      (assistantNewEvent e m sid
        (assistantScan now sid (w.db.upsertSession now (seedPatch e sid)) m.content).1
        (assistantScan now sid (w.db.upsertSession now (seedPatch e sid)) m.content).2.1)
      with h | h <;> rw [h] <;> dsimp only []
  · rw [htot, hscanT]
  · exact htot.trans (by rw [hscanT])

/-- Totals after a whole batch of fresh assistant entries: the base
totals plus the elementwise sums of the per-record contributions. -/
theorem processEntries_totals (w : World) (now sid : String) (entries : List Entry)
    (hk : ∀ e ∈ entries, isAssistant e = true)
    (hfresh : FreshUuids w.db entries) :
    (processEntries w now entries sid).db.sessionTotals sid =
      ⟨(w.db.sessionTotals sid).input + (entries.map (fun e => (extractTokens (entryUsage e)).totalInput)).sum,
       (w.db.sessionTotals sid).output + (entries.map (fun e => (extractTokens (entryUsage e)).output)).sum,
       (w.db.sessionTotals sid).cacheRead + (entries.map (fun e => (extractTokens (entryUsage e)).cacheRead)).sum,
       (w.db.sessionTotals sid).cacheWrite + (entries.map (fun e => (extractTokens (entryUsage e)).cacheWrite)).sum,
       (w.db.sessionTotals sid).cost + (entries.map (fun e => calculateCost (entryModel e) (entryUsage e))).sum⟩ := by
  revert hk hfresh
  induction entries generalizing w with
  | nil =>
    intro hk hfresh
    simp [processEntries]
  | cons e rest ih =>
    intro hk hfresh
    obtain ⟨hfst, hpair⟩ := hfresh
    have hke := hk e (by simp)
    obtain ⟨m, hm⟩ : ∃ m, e.kind = .assistant m := by
      cases hkind : e.kind with
      | assistant m => exact ⟨m, rfl⟩
      | user msg => simp [isAssistant, hkind] at hke
      | otherKind => simp [isAssistant, hkind] at hke
    have hstep := processEntry_assistant_totals w now sid e m hm
      (guard_false_of_fresh w.db sid e (hfst e (by simp)))
    have hfresh2 : FreshUuids (processEntry w now e sid).1.db rest := by
      constructor
      · intro x hx u hu
        apply uuidStored_after_processEntry w now sid e u ?_ (truthy_ne_empty x u hu)
          (hfst x (by simp [hx]) u hu)
        intro v hv hvu
        have hrel := (List.pairwise_cons.mp hpair).1 x hx
        rw [hvu] at hv
        exact hrel u hv hu
      · exact (List.pairwise_cons.mp hpair).2
    have hkr : ∀ x ∈ rest, isAssistant x = true := fun x hx => hk x (by simp [hx])
    unfold processEntries
    rw [List.foldl_cons]
    have hih := ih (processEntry w now e sid).1 hkr hfresh2
    unfold processEntries at hih
    rw [hih, hstep]
    simp only [List.map_cons, List.sum_cons, entryUsage, entryModel, hm]
    simp only [Totals.mk.injEq]
    refine ⟨by omega, by omega, by omega, by omega, by ring⟩

/-! ## Claim theorems -/

/-- Claim C6: for every model identifier and usage (absent/malformed
token fields read as 0), `calculateCost` returns
`in/1e6 · pIn + out/1e6 · pOut + cw/1e6 · pCacheWrite + cr/1e6 · pCacheRead`
using that model's pricing tuple; any model outside the four recognized
identifiers falls back to the fixed default tuple; and
`cost("claude-sonnet-4-20250514", 2_000_000 input, 100_000 output)`
equals 7.50. -/
theorem calculateCost_formula_fallback_example :
    (∀ model usage, calculateCost model usage =
        ((usage.input_tokens.getD 0 : ℚ) / 1000000) * (MODEL_PRICING model).inputPerMillion
      + ((usage.output_tokens.getD 0 : ℚ) / 1000000) * (MODEL_PRICING model).outputPerMillion
      + ((usage.cache_creation_input_tokens.getD 0 : ℚ) / 1000000) * (MODEL_PRICING model).cacheWritePerMillion
      + ((usage.cache_read_input_tokens.getD 0 : ℚ) / 1000000) * (MODEL_PRICING model).cacheReadPerMillion)
  ∧ (∀ model, model ≠ "claude-opus-4-5-20251101" → model ≠ "claude-sonnet-4-20250514" →
      model ≠ "claude-3-5-sonnet-20241022" → model ≠ "claude-3-5-haiku-20241022" →
      MODEL_PRICING model = defaultPricing)
  ∧ calculateCost "claude-sonnet-4-20250514"
      { input_tokens := some 2000000, output_tokens := some 100000,
        cache_creation_input_tokens := none, cache_read_input_tokens := none } = 15 / 2 := by
  refine ⟨fun model usage => rfl, fun model h1 h2 h3 h4 => ?_,
    by simp [calculateCost, MODEL_PRICING]; norm_num⟩
  simp [ MODEL_PRICING, h1, h2, h3, h4]

/-- Witness for C6: the fallback conjunct applied to a concrete
unrecognized model. -/
theorem calculateCost_formula_fallback_example_witness :
    MODEL_PRICING "some-unreleased-model" = defaultPricing :=
  calculateCost_formula_fallback_example.2.1 "some-unreleased-model"
    (by decide) (by decide) (by decide) (by decide)

/-- Claim C9: every `upsertMcpTool` call preserves the invariant
`success_count + error_count = invocation_count` on all rows (a fresh
row satisfies it too), and on the addressed `(session, tool)` key it
increments `invocation_count` by exactly 1 and exactly one of
`success_count`/`error_count` by 1. -/
theorem mcp_counts_consistent (db : Db) (now sid tool : String) (success : Bool)
    (dur : Nat) (h : McpInvariant db) :
    McpInvariant (db.upsertMcpTool now sid tool success dur)
  ∧ (db.upsertMcpTool now sid tool success dur).mcpCounts sid tool =
      ((db.mcpCounts sid tool).1 + 1,
       (db.mcpCounts sid tool).2.1 + (if success then 1 else 0),
       (db.mcpCounts sid tool).2.2 + (if success then 0 else 1)) := by
  refine ⟨?_, mcpCounts_upsert db now sid tool success dur⟩
  cases hf : db.mcpTools.find? (fun x => x.session_id == sid && x.tool_name == tool) with
  | some t =>
    rw [upsertMcpTool_eq_update db now sid tool success dur t hf]
    intro x hx
    have hx' : x ∈ db.mcpTools.map
        (fun y => if y.session_id == sid && y.tool_name == tool then mcpUpdate now success dur y else y) := hx
    obtain ⟨y, hy, hxy⟩ := List.mem_map.mp hx'
    by_cases hk : (y.session_id == sid && y.tool_name == tool) = true
    · rw [if_pos hk] at hxy
      subst hxy
      exact mcpTool_update_equation y success (h y hy)
    · rw [if_neg hk] at hxy
      subst hxy
      exact h y hy
  | none =>
    rw [upsertMcpTool_eq_insert db now sid tool success dur hf]
    intro x hx
    have hx' : x ∈ db.mcpTools ++ [mcpFresh now sid tool success dur] := hx
    rcases List.mem_append.mp hx' with hmem | hmem
    · exact h x hmem
    · have : x = mcpFresh now sid tool success dur := by simpa using hmem
      subst this
      cases success <;> simp [mcpFresh]

/-- Witness for C9: a concrete call on the empty store. -/
theorem mcp_counts_consistent_witness :
    McpInvariant (Db.empty.upsertMcpTool "T" "s1" "mcp__srv__tool" true 5)
  ∧ (Db.empty.upsertMcpTool "T" "s1" "mcp__srv__tool" true 5).mcpCounts "s1" "mcp__srv__tool"
      = (1, 1, 0) := by
  have h := mcp_counts_consistent Db.empty "T" "s1" "mcp__srv__tool" true 5
    (by intro t ht; simp [Db.empty] at ht)
  refine ⟨h.1, ?_⟩
  rw [h.2]
  decide

/-- Claim C5: two `upsertSession` calls for a fresh session id carrying
start timestamps `T1` then `T2` leave the stored start timestamp at
`min T1 T2` (for an actual, nonempty `T1`: supplying the falsy empty
string would make the source substitute the current time), and in
general an upsert never moves a stored start timestamp later. -/
theorem started_at_min_of_two_upserts (db : Db) (now1 now2 sid T1 T2 : String)
    (hfresh : db.findSession sid = none) (hT1 : T1 ≠ "") :
    ((db.upsertSession now1 { id := sid, started_at := some T1 }).upsertSession now2
        { id := sid, started_at := some T2 }).startedAt? sid = some (min T1 T2)
  ∧ ∀ (db' : Db) (now : String) (p : SessionPatch) (s s' : Session),
      db'.findSession p.id = some s →
      (db'.upsertSession now p).findSession p.id = some s' →
      s'.started_at ≤ s.started_at := by
  constructor
  · have h1 := findSession_upsert_of_absent db now1 { id := sid, started_at := some T1 } hfresh
    have hrow : (freshSession now1 { id := sid, started_at := some T1 }).started_at = T1 := by
      simp [freshSession, jsOr, hT1]
    have h2 := findSession_upsert_of_exists (db.upsertSession now1 { id := sid, started_at := some T1 })
      now2 { id := sid, started_at := some T2 } _ h1
    have hpatched : (applyPatch { id := sid, started_at := some T2 }
        (freshSession now1 { id := sid, started_at := some T1 })).started_at =
          (if T2 < T1 then T2 else T1) := by
      simp [applyPatch, hrow]
    unfold Db.startedAt?
    rw [h2, Option.map_some', hpatched]
    rcases lt_or_le T2 T1 with hlt | hle
    · rw [if_pos hlt, min_eq_right hlt.le]
    · rw [if_neg (not_lt.mpr hle), min_eq_left hle]
  · intro db' now p s s' hs hs'
    rw [findSession_upsert_of_exists db' now p s hs] at hs'
    have hval : applyPatch p s = s' := Option.some.inj hs'
    subst hval
    cases hp : p.started_at with
    | none => simp [applyPatch, hp]
    | some t =>
      simp only [applyPatch, hp]
      split
      · next hlt => exact le_of_lt hlt
      · exact le_refl _

/-- Witness for C5: concrete out-of-order timestamps on the empty store. -/
theorem started_at_min_of_two_upserts_witness :
    ((Db.empty.upsertSession "N1" { id := "s1", started_at := some "2024-05" }).upsertSession "N2"
        { id := "s1", started_at := some "2024-03" }).startedAt? "s1" = some (min "2024-05" "2024-03") :=
  (started_at_min_of_two_upserts Db.empty "N1" "N2" "s1" "2024-05" "2024-03" rfl (by decide)).1

/-- Claim C7: for every `days ≥ 1` the day series has exactly `days`
entries, one per local calendar day, the i-th entry carrying day
`today − days + 1 + i` (so the series ascends and ends today), and every
listed day with no session activity carries all-zero numeric fields. -/
theorem getCostsByDay_gap_filled (db : Db) (localDate : String → Int)
    (today : Int) (days : Nat) (hdays : 1 ≤ days) :
    (db.getCostsByDay localDate today days).length = days
  ∧ (∀ i, ∀ h : i < (db.getCostsByDay localDate today days).length,
      ((db.getCostsByDay localDate today days).get ⟨i, h⟩).date = today - days + 1 + i)
  ∧ ((db.getCostsByDay localDate today days).getLast?).map (fun c => c.date) = some today
  ∧ List.Pairwise (fun a b => a.date < b.date) (db.getCostsByDay localDate today days)
  ∧ (∀ i, ∀ h : i < (db.getCostsByDay localDate today days).length,
      db.sessionsOnDay localDate (today - days + 1 + i) = [] →
      (db.getCostsByDay localDate today days).get ⟨i, h⟩ =
        { date := today - days + 1 + i, inputTokens := 0, outputTokens := 0,
          cacheReadTokens := 0, cacheWriteTokens := 0, costUsd := 0,
          costWithoutCache := 0, cacheSavings := 0 }) := by
  have hdate : ∀ d : Int, (db.daySummary localDate d).date = d := by
    intro d
    cases hr : (db.sessionsOnDay localDate d).isEmpty <;> simp [Db.daySummary, hr]
  have hlen : (db.getCostsByDay localDate today days).length = days := by
    unfold Db.getCostsByDay
    rw [List.length_map, List.length_range]
  have hget : ∀ i, ∀ h : i < (db.getCostsByDay localDate today days).length,
      ((db.getCostsByDay localDate today days).get ⟨i, h⟩).date = today - days + 1 + i := by
    intro i h
    simp only [Db.getCostsByDay, List.get_eq_getElem, List.getElem_map, List.getElem_range, hdate]
  refine ⟨hlen, hget, ?_, ?_, ?_⟩
  · have hne : db.getCostsByDay localDate today days ≠ [] := by
      intro hnil
      rw [hnil] at hlen
      simp at hlen
      omega
    rw [List.getLast?_eq_getLast_of_ne_nil hne, Option.map_some']
    rw [List.getLast_eq_getElem (db.getCostsByDay localDate today days) hne]
    have hidx : (db.getCostsByDay localDate today days).length - 1 <
        (db.getCostsByDay localDate today days).length := by
      rw [hlen]; omega
    have hg := hget ((db.getCostsByDay localDate today days).length - 1) hidx
    rw [List.get_eq_getElem] at hg
    rw [hg, hlen]
    have hc : ((days - 1 : Nat) : Int) = (days : Int) - 1 := by omega
    rw [hc]
    congr 1
    have hd : (1 : Int) ≤ (days : Int) := by exact_mod_cast hdays
    omega
  · unfold Db.getCostsByDay
    rw [List.pairwise_map]
    apply List.Pairwise.imp ?_ (List.pairwise_lt_range days)
    intro a b hab
    rw [hdate, hdate]
    have hab' : (a : Int) < (b : Int) := by exact_mod_cast hab
    omega
  · intro i h hempty
    simp only [Db.getCostsByDay, List.get_eq_getElem, List.getElem_map, List.getElem_range]
    unfold Db.daySummary
    rw [hempty]
    rfl

/-- Witness for C7: a 2-day series over the empty store ends today and
has 2 entries. -/
theorem getCostsByDay_gap_filled_witness :
    (Db.empty.getCostsByDay (fun _ => 0) 10 2).length = 2
  ∧ ((Db.empty.getCostsByDay (fun _ => 0) 10 2).getLast?).map (fun c => c.date) = some 10 := by
  have h := getCostsByDay_gap_filled Db.empty (fun _ => 0) 10 2 (by decide)
  exact ⟨h.1, h.2.2.1⟩

/-- Claim C8: `broadcast` delivers only to clients whose channel is
currently open (readyState 1) and whose send succeeds, removes exactly
the clients whose send throws, keeps everyone else, and — being a total
function — propagates no delivery error; consequently
`processHookEvent` persists its event and returns it under every
broadcaster state, including one where every send fails. -/
theorem broadcast_error_isolation :
    (∀ ws msg c, c ∈ Ws.deliveredTo ws msg → c.readyState = 1 ∧ c.sendFails = false)
  ∧ (∀ ws msg c, c ∈ ws.clients → c.readyState = 1 → c.sendFails = true →
      c ∉ (Ws.broadcast ws msg).clients)
  ∧ (∀ ws msg c, c ∈ ws.clients → ¬(c.readyState = 1 ∧ c.sendFails = true) →
      c ∈ (Ws.broadcast ws msg).clients)
  ∧ (∀ (w : World) (now : String) (e : HookEvent),
      (processHookEvent w now e).1.db.events.length = w.db.events.length + 1
      ∧ (processHookEvent w now e).2.id = w.db.events.length + 1) := by
  refine ⟨?_, ?_, ?_, ?_⟩
  · intro ws msg c hc
    have h := List.mem_filter.mp hc
    have hb := h.2
    simp only [Bool.and_eq_true, beq_iff_eq, Bool.not_eq_true'] at hb
    exact hb
  · intro ws msg c hmem h1 h2 hcontra
    have h := List.mem_filter.mp hcontra
    have hb := h.2
    simp [h1, h2] at hb
  · intro ws msg c hmem hnot
    apply List.mem_filter.mpr
    refine ⟨hmem, ?_⟩
    by_cases h1 : c.readyState = 1
    · have h2 : c.sendFails = false := by
        cases hsf : c.sendFails
        · rfl
        · exact absurd ⟨h1, hsf⟩ hnot
      simp [h1, h2]
    · simp [h1]
  · intro w now e
    have h := processHookEvent_shape w now e
    refine ⟨?_, h.2.2⟩
    rw [h.1, List.length_append]
    rfl

/-- Witness for C8: a broadcaster with one open-and-failing client and
one open-and-healthy client, processing a concrete hook event. -/
theorem broadcast_error_isolation_witness :
    (⟨1, false⟩ : Client) ∈ Ws.deliveredTo ⟨[⟨1, true⟩, ⟨1, false⟩]⟩ (.statsUpdate ⟨0, 0, 0, 0, 0⟩) →
      (⟨1, false⟩ : Client).readyState = 1 ∧ (⟨1, false⟩ : Client).sendFails = false := by
  intro h
  exact broadcast_error_isolation.1 ⟨[⟨1, true⟩, ⟨1, false⟩]⟩ (.statsUpdate ⟨0, 0, 0, 0, 0⟩) ⟨1, false⟩ h

/-- Claim C10: hook (push-derived) events are stored with a null
producer uuid; the storage-layer uniqueness constraint exempts null
uuids, so an insert with a null uuid always succeeds; consequently
processing the identical push record twice stores two event rows — the
push ingestion path is not idempotent — while the uniqueness invariant
on non-null uuids is undisturbed. -/
theorem hook_ingestion_not_idempotent (w : World) (now : String) (e : HookEvent) :
    ((processHookEvent (processHookEvent w now e).1 now e).1.db.events.length
        = w.db.events.length + 2)
  ∧ (∀ ev ∈ (processHookEvent (processHookEvent w now e).1 now e).1.db.events.drop
        w.db.events.length, ev.uuid = none)
  ∧ (∀ (db : Db) (ne : NewEvent), ne.uuid = none → (db.insertEvent ne).isSome = true)
  ∧ (UuidUnique w.db →
      UuidUnique (processHookEvent (processHookEvent w now e).1 now e).1.db) := by
  have h1 := processHookEvent_shape w now e
  have h2 := processHookEvent_shape (processHookEvent w now e).1 now e
  have hev2 : (processHookEvent (processHookEvent w now e).1 now e).1.db.events =
      w.db.events ++ [(hookNewEvent e).row (w.db.events.length + 1),
        (hookNewEvent e).row ((processHookEvent w now e).1.db.events.length + 1)] := by
    rw [h2.1, h1.1]
    simp
  refine ⟨?_, ?_, ?_, ?_⟩
  · rw [hev2, List.length_append]
    rfl
  · intro ev hmem
    rw [hev2, List.drop_left] at hmem
    have : ev = (hookNewEvent e).row (w.db.events.length + 1) ∨
        ev = (hookNewEvent e).row ((processHookEvent w now e).1.db.events.length + 1) := by
      simpa using hmem
    rcases this with rfl | rfl <;> rfl
  · intro db ne hu
    rw [insertEvent_of_no_conflict db ne (insertConflict_none_uuid db ne hu)]
    rfl
  · intro hun
    unfold UuidUnique at hun ⊢
    rw [hev2]
    rw [show w.db.events ++ [(hookNewEvent e).row (w.db.events.length + 1),
        (hookNewEvent e).row ((processHookEvent w now e).1.db.events.length + 1)] =
      (w.db.events ++ [(hookNewEvent e).row (w.db.events.length + 1)]) ++
        [(hookNewEvent e).row ((processHookEvent w now e).1.db.events.length + 1)] by simp]
    exact uuidUniqueL_append_none _ _ rfl (uuidUniqueL_append_none _ _ rfl hun)

/-- Witness for C10: the null-uuid insert conjunct and the invariant
conjunct at concrete inputs on the empty store. -/
theorem hook_ingestion_not_idempotent_witness :
    (Db.empty.insertEvent { session_id := "s1", event_type := "hook", timestamp := "T", uuid := none }).isSome = true
  ∧ UuidUnique (processHookEvent (processHookEvent ⟨Db.empty, ⟨[]⟩⟩ "N" { session_id := "s1", hook_event_name := "PreToolUse", timestamp := "T" }).1 "N" { session_id := "s1", hook_event_name := "PreToolUse", timestamp := "T" }).1.db := by
  have h := hook_ingestion_not_idempotent ⟨Db.empty, ⟨[]⟩⟩ "N" { session_id := "s1", hook_event_name := "PreToolUse", timestamp := "T" }
  refine ⟨h.2.2.1 Db.empty _ rfl, h.2.2.2 ?_⟩
  unfold UuidUnique UuidUniqueL
  simp [Db.empty]

/-- Claim C1: a producer-supplied uuid is stored at most once across all
sessions and ingestion paths — every ingestion operation preserves the
uuid-uniqueness invariant — and a record whose (truthy) uuid is already
stored is dropped whole: no event row and no session-total delta (the
state is untouched).  In particular, once one record with uuid `u` has
produced an event, a second record with the same uuid — even under a
different session id — is a no-op. -/
theorem uuid_dedup_global :
    (∀ (w : World) (now : String) (entry : Entry) (sid : String), UuidUnique w.db →
        UuidUnique (processEntry w now entry sid).1.db)
  ∧ (∀ (w : World) (now : String) (f : TFile), UuidUnique w.db →
        UuidUnique (parseFile w now f).1.db)
  ∧ (∀ (w : World) (now : String) (e : HookEvent), UuidUnique w.db →
        UuidUnique (processHookEvent w now e).1.db)
  ∧ (∀ (w : World) (now : String) (entry : Entry) (sid u : String),
        truthyUuid entry = some u → w.db.uuidStored u = true →
        processEntry w now entry sid = (w, none))
  ∧ (∀ (w : World) (now : String) (e1 e2 : Entry) (sid1 sid2 u : String),
        truthyUuid e1 = some u → truthyUuid e2 = some u →
        ((processEntry w now e1 sid1).2).isSome = true →
        processEntry (processEntry w now e1 sid1).1 now e2 sid2 =
          ((processEntry w now e1 sid1).1, none)) := by
  refine ⟨processEntry_uuidUnique, parseFile_uuidUnique, processHookEvent_uuidUnique,
    processEntry_dedup_noop, ?_⟩
  intro w now e1 e2 sid1 sid2 u hu1 hu2 hsome
  apply processEntry_dedup_noop _ _ _ _ u hu2
  rcases processEntry_shape w now e1 sid1 with ⟨_, hnone⟩ | ⟨ev, hev, huuid, _⟩
  · rw [hnone] at hsome
    simp at hsome
  · unfold Db.uuidStored
    rw [hev, List.any_append]
    have he1 : ev.uuid = some u := by rw [huuid]; exact uuid_of_truthy e1 u hu1
    simp [he1]

/-- Witness for C1: processing the same (uuid-carrying) record twice,
under two different session ids, leaves the second call a no-op. -/
theorem uuid_dedup_global_witness :
    processEntry (processEntry ⟨Db.empty, ⟨[]⟩⟩ "N" { kind := .user (.text "hi"), uuid := some "u1", parentUuid := none, timestamp := "T", cwd := none, gitBranch := none, version := none, raw := "r" } "s1").1 "N" { kind := .user (.text "hi"), uuid := some "u1", parentUuid := none, timestamp := "T", cwd := none, gitBranch := none, version := none, raw := "r" } "s2" =
      ((processEntry ⟨Db.empty, ⟨[]⟩⟩ "N" { kind := .user (.text "hi"), uuid := some "u1", parentUuid := none, timestamp := "T", cwd := none, gitBranch := none, version := none, raw := "r" } "s1").1, none) := by
  apply uuid_dedup_global.2.2.2.2 ⟨Db.empty, ⟨[]⟩⟩ "N" _ _ "s1" "s2" "u1" (by decide) (by decide)
  rfl

/-- Claim C4: a line that fails to parse as JSON is skipped without
aborting the pass — the pass is identical to the same pass with the
malformed line deleted, so all later lines are still processed — and
after every pass the file's cursor equals the file's current total
size, whatever the lines were (including all-malformed). -/
theorem parseFile_malformed_skipped_cursor_advanced (w : World) (now path : String)
    (size : Nat) (l₁ l₂ : List RawLine) :
    parseFile w now ⟨path, size, l₁ ++ RawLine.malformed :: l₂⟩ =
      parseFile w now ⟨path, size, l₁ ++ l₂⟩
  ∧ (∀ f : TFile, (parseFile w now f).1.db.getFilePosition f.path = f.size) := by
  constructor
  · have hf : ((l₁ ++ RawLine.malformed :: l₂).filter notBlank).foldl
        (parseLineStep now (sessionIdOfPath path)) (w, []) =
        ((l₁ ++ l₂).filter notBlank).foldl
        (parseLineStep now (sessionIdOfPath path)) (w, []) := by
      rw [List.filter_append, List.filter_append,
        List.filter_cons_of_pos (by rfl),
        List.foldl_append, List.foldl_cons,
        show parseLineStep now (sessionIdOfPath path)
            ((l₁.filter notBlank).foldl (parseLineStep now (sessionIdOfPath path)) (w, []))
            RawLine.malformed =
          (l₁.filter notBlank).foldl (parseLineStep now (sessionIdOfPath path)) (w, []) from rfl,
        ← List.foldl_append]
    unfold parseFile
    dsimp only []
    rw [hf]
  · intro f
    unfold parseFile
    dsimp only []
    exact getFilePosition_set _ _ _

/-- Claim C3 (refuting the incremental-read contract): the source
computes the truncation-aware offset `readFrom` on line 28 of
`transcript-parser.ts` and then never uses it — `readFileSync` reads the
whole file and every line is parsed on every pass.  Here a one-line file
has been fully consumed (stored cursor = size = 12, so the file is not
smaller than the cursor and the computed offset itself is 12); the claim
mandates that the next pass parse only bytes from offset 12 — i.e.
nothing — yet the pass re-processes the line before the cursor and (its
uuid being null) stores a second event row. -/
theorem parseFile_reprocesses_consumed_bytes :
    ((parseFile worldEmpty "N" fileOneLine).1.db.getFilePosition "a/s1.jsonl" = 12)
  ∧ parseFileReadFrom 12 12 = 12
  ∧ (parseFile (parseFile worldEmpty "N" fileOneLine).1 "N" fileOneLine).1.db.events.length = 2 := by
  refine ⟨?_, by decide, ?_⟩
  · show ((parseFile worldEmpty "N" fileOneLine).1.db.getFilePosition fileOneLine.path
      = fileOneLine.size)
    unfold parseFile
    dsimp only []
    exact getFilePosition_set _ _ _
  · rw [show (parseFile (parseFile worldEmpty "N" fileOneLine).1 "N" fileOneLine).1.db.events.length = (parseFile worldEmpty "N" fileOneLine).1.db.events.length + 1 from parseFile_one_entry_events _ "N" "a/s1.jsonl" 12 entryOneLine (.text "hi") rfl rfl]
    rw [show (parseFile worldEmpty "N" fileOneLine).1.db.events.length = worldEmpty.db.events.length + 1 from parseFile_one_entry_events _ "N" "a/s1.jsonl" 12 entryOneLine (.text "hi") rfl rfl]
    rfl

/-- Claim C2: after processing a batch of fresh assistant-turn records
of one session, the session's stored totals equal the elementwise sums
of the per-record usages — the input column counting
`totalInput = input_tokens + cache_read_input_tokens` per record, as
specified for the Cost Model companion — and the stored cost equals the
sum of the per-record `calculateCost` values; the final totals are the
same for every processing order of the batch. -/
theorem session_totals_additive (w : World) (now sid : String) (entries : List Entry)
    (hk : ∀ e ∈ entries, isAssistant e = true)
    (hfresh : FreshUuids w.db entries) :
    ((processEntries w now entries sid).db.sessionTotals sid =
      ⟨(w.db.sessionTotals sid).input + (entries.map (fun e => (entryUsage e).input_tokens.getD 0 + (entryUsage e).cache_read_input_tokens.getD 0)).sum,
       (w.db.sessionTotals sid).output + (entries.map (fun e => (entryUsage e).output_tokens.getD 0)).sum,
       (w.db.sessionTotals sid).cacheRead + (entries.map (fun e => (entryUsage e).cache_read_input_tokens.getD 0)).sum,
       (w.db.sessionTotals sid).cacheWrite + (entries.map (fun e => (entryUsage e).cache_creation_input_tokens.getD 0)).sum,
       (w.db.sessionTotals sid).cost + (entries.map (fun e => calculateCost (entryModel e) (entryUsage e))).sum⟩)
  ∧ (∀ entries₂, entries.Perm entries₂ →
      (processEntries w now entries₂ sid).db.sessionTotals sid =
        (processEntries w now entries sid).db.sessionTotals sid) := by
  have hmain := processEntries_totals w now sid entries hk hfresh
  constructor
  · exact hmain
  · intro l₂ hperm
    have hk₂ : ∀ e ∈ l₂, isAssistant e = true := fun e he => hk e (hperm.mem_iff.mpr he)
    have hfresh₂ : FreshUuids w.db l₂ := by
      constructor
      · intro e he u hu
        exact hfresh.1 e (hperm.mem_iff.mpr he) u hu
      · have hsym : ∀ {a b : Entry}, (∀ u, truthyUuid a = some u → truthyUuid b ≠ some u) →
            (∀ u, truthyUuid b = some u → truthyUuid a ≠ some u) := by
          intro a b hab u hbu hau
          exact hab u hau hbu
        exact (hperm.pairwise_iff hsym).mp hfresh.2
    have h₂ := processEntries_totals w now sid l₂ hk₂ hfresh₂
    rw [h₂, hmain]
    rw [(hperm.map (fun e => (extractTokens (entryUsage e)).totalInput)).sum_eq,
      (hperm.map (fun e => (extractTokens (entryUsage e)).output)).sum_eq,
      (hperm.map (fun e => (extractTokens (entryUsage e)).cacheRead)).sum_eq,
      (hperm.map (fun e => (extractTokens (entryUsage e)).cacheWrite)).sum_eq,
      (hperm.map (fun e => calculateCost (entryModel e) (entryUsage e))).sum_eq]

/-- Witness for C2: two concrete assistant records; the totals come out
as the sums 3,000,000 input / 1,000,000 output / cost 24 (at the default
3 and 15 dollars per million). -/
theorem session_totals_additive_witness :
    (processEntries worldEmpty "N" [entryA1, entryA2] "s1").db.sessionTotals "s1" =
      ⟨3000000, 1000000, 0, 0, 24⟩ := by
  have hk : ∀ e ∈ [entryA1, entryA2], isAssistant e = true := by
    intro e he
    rcases List.mem_cons.mp he with rfl | he
    · rfl
    rcases List.mem_cons.mp he with rfl | he
    · rfl
    simp at he
  have hfresh : FreshUuids worldEmpty.db [entryA1, entryA2] := by
    constructor
    · intro e he u hu
      rcases List.mem_cons.mp he with rfl | he
      · simp [truthyUuid, entryA1] at hu
      rcases List.mem_cons.mp he with rfl | he
      · simp [truthyUuid, entryA2] at hu
      simp at he
    · refine List.Pairwise.cons ?_ (List.Pairwise.cons ?_ List.Pairwise.nil)
      · intro b hb u hu
        simp [truthyUuid, entryA1] at hu
      · intro b hb u hu
        simp [truthyUuid, entryA2] at hu
  have h := (session_totals_additive worldEmpty "N" "s1" [entryA1, entryA2] hk hfresh).1
  rw [h]
  simp only [List.map_cons, List.map_nil, List.sum_cons, List.sum_nil, entryUsage, entryModel,
    entryA1, entryA2]
  simp [worldEmpty, Db.empty, Db.sessionTotals, Db.findSession, calculateCost, MODEL_PRICING]
  norm_num [defaultPricing]

end CCMonitor










